import Mathlib

/-!
# Verification of the HL7 vertical-bar / XML codec (bar2xml.py, xml2bar.py)

A shallow embedding of the codec at the heart of the `HL7-bar2xml`
repository: the bar-to-tree decoder (`createXML` with its helper
`fixElement` in `bar2xml.py`), the tree-to-bar encoder (`getSegment`,
`getField`, `getComponent` in `xml2bar.py`), the delimiter extraction and
message-structure resolution of `bar2xml.py`'s main block, and the
hex-character-reference transforms shared by both sides.

Python strings are modelled as `List Char`; Python `str.split(sep)` for a
one-character separator is `pySplit`; Python list indexing (which raises
`IndexError` out of range) and the other exceptional exits are modelled in
the `Except PyErr` monad.  Recursive procedures are given explicit fuel;
every theorem about a guarded branch holds for every fuel value.
-/

/-- Python `str` modelled as a list of characters. -/
abbrev Str := List Char

/-- Errors a run of the Python code can signal: `sys.exit(EX_DATAERR)`
(`dataError`), `sys.exit(EX_CONFIG)` (`configError`), the uncaught Python
exceptions `IndexError`, `TypeError`, `AttributeError`, `ValueError`, and
exhaustion of the modelling fuel. -/
inductive PyErr where
  | dataError
  | configError
  | indexError
  | typeError
  | attributeError
  | valueError
  | keyError
  | outOfFuel
deriving DecidableEq, Repr

deriving instance DecidableEq for Except

/-- Python list indexing `l[i]`: `IndexError` when out of range. -/
def pyIdx (l : List α) (i : Nat) : Except PyErr α :=
  if h : i < l.length then .ok l[i] else .error .indexError

/-- Python `s.split(sep)` for a one-character separator: splits at every
occurrence of `sep`, keeping empty pieces; `''.split(sep) = ['']`. -/
def pySplit (sep : Char) : Str → List Str
  | [] => [[]]
  | c :: rest =>
    match pySplit sep rest with
    | [] => [[]]
    | w :: ws => if c = sep then [] :: w :: ws else (c :: w) :: ws

/-- Joining with a one-character separator (`sep.join(pieces)`). -/
def pyJoin (sep : Char) : List Str → Str
  | [] => []
  | [w] => w
  | w :: ws => w ++ sep :: pyJoin sep ws

theorem pySplit_ne_nil (sep : Char) (s : Str) : pySplit sep s ≠ [] := by
  cases s with
  | nil => simp [pySplit]
  | cons c rest =>
    simp only [pySplit]
    cases h : pySplit sep rest with
    | nil => simp
    | cons w ws => by_cases hc : c = sep <;> simp [hc]

theorem pyJoin_pySplit (sep : Char) (s : Str) : pyJoin sep (pySplit sep s) = s := by
  induction s with
  | nil => rfl
  | cons c rest ih =>
    simp only [pySplit]
    cases h : pySplit sep rest with
    | nil => exact absurd h (pySplit_ne_nil sep rest)
    | cons w ws =>
      rw [h] at ih
      by_cases hc : c = sep
      · subst hc
        simpa [pyJoin] using ih
      · cases ws with
        | nil => simpa [pyJoin, if_neg hc] using congrArg (c :: ·) ih
        | cons w2 ws2 => simpa [pyJoin, if_neg hc] using congrArg (c :: ·) ih

/-- The decimal digit character of `n < 10`. -/
def digitChar (n : Nat) : Char :=
  match n with
  | 0 => '0' | 1 => '1' | 2 => '2' | 3 => '3' | 4 => '4'
  | 5 => '5' | 6 => '6' | 7 => '7' | 8 => '8' | _ => '9'

/-- Decimal digits of a natural number (auxiliary, fuel-driven). -/
def natDigitsAux : Nat → Nat → Str
  | 0, _ => []
  | fuel + 1, n => if n < 10 then [digitChar n] else natDigitsAux fuel (n / 10) ++ [digitChar (n % 10)]

/-- Decimal digits of a natural number, as Python's `str(n)` / f-string
formatting produces them. -/
def natDigits (n : Nat) : Str := natDigitsAux (n + 1) n

/-- Value of one decimal digit character, if it is one. -/
def digitVal (c : Char) : Option Nat :=
  if 48 ≤ c.toNat ∧ c.toNat ≤ 57 then some (c.toNat - 48) else none

/-- Python `int(s)` restricted to strings of decimal digits: `none` models
the `ValueError` raised on anything else. -/
def pyNat (s : Str) : Option Nat :=
  match s with
  | [] => none
  | _ =>
    s.foldlM (fun acc c => (digitVal c).map (fun d => acc * 10 + d)) 0

theorem natDigitsAux_spec (fuel n : Nat) (h : n < fuel) :
    ∀ acc : Nat, (natDigitsAux fuel n).foldlM
      (fun acc c => (digitVal c).map (fun d => acc * 10 + d)) acc = some (acc * 10 ^ (natDigitsAux fuel n).length + n) := by
  induction fuel generalizing n with
  | zero => omega
  | succ fuel ih =>
    intro acc
    by_cases h10 : n < 10
    · have hd : digitVal (digitChar n) = some n := by
        interval_cases n <;> decide
      simp [natDigitsAux, h10, hd, List.foldlM]
    · have hn10 : n / 10 < fuel := by
        have h1 : n / 10 < n := Nat.div_lt_self (by omega) (by omega)
        omega
      have hd : digitVal (digitChar (n % 10)) = some (n % 10) := by
        have hm : n % 10 < 10 := Nat.mod_lt _ (by omega)
        have hm9 : n % 10 ≤ 9 := by omega
        interval_cases h : n % 10 <;> simp_all <;> decide
    -- foldlM over the append: first the digits of n / 10, then the last digit
      simp only [natDigitsAux, if_neg h10, List.foldlM_append]
      rw [ih (n / 10) hn10 acc]
      simp only [Option.bind_eq_bind, Option.some_bind, List.foldlM, hd, Option.map_some,
        Option.map_some']
      simp only [Option.pure_def, Option.bind_some]
      congr 1
      rw [List.length_append, List.length_singleton, pow_succ, ← Nat.mul_assoc]
      generalize acc * 10 ^ (natDigitsAux fuel (n / 10)).length = m
      omega

theorem natDigits_ne_nil (n : Nat) : natDigits n ≠ [] := by
  unfold natDigits natDigitsAux
  by_cases h : n < 10 <;> simp [h]

/-- Parsing the decimal rendering of `n` gives back `n`. -/
theorem pyNat_natDigits (n : Nat) : pyNat (natDigits n) = some n := by
  have h := natDigitsAux_spec (n + 1) n (by omega) 0
  cases hd : natDigits n with
  | nil => exact absurd hd (natDigits_ne_nil n)
  | cons c cs =>
    unfold natDigits at hd
    rw [hd] at h
    simp only [Nat.zero_mul, Nat.zero_add] at h
    simpa [pyNat] using h

/-!
## Data model

`Node` models the `xml.etree.ElementTree` nodes the two scripts build and
walk: plain elements with a tag, an optional `V` attribute (the only
attribute the codec reads or writes), optional `text`, optional `tail`, and
a list of children; and comment nodes (the diagnostic annotations).
-/

inductive Node where
  | elem (tag : Str) (attrV : Option Str) (text : Option Str) (tail : Option Str)
      (children : List Node)
  | comment (text : Str)
deriving Repr

/-- A grammar node of a message-structure XSD `xsd:sequence`/`xsd:choice`:
the `ref`, `minOccurs` and `maxOccurs` attributes `createXML` reads. -/
structure GNode where
  ref : Str
  minOccurs : Str
  maxOccurs : Str
deriving Repr, DecidableEq

/-- The delimiter set.  `bar2xml.py` keeps `subCompSep` as `''` when the
header supplies fewer than 4 encoding characters and guards every use with
`subCompSep != ''`; `xml2bar.py` keeps the missing escape separator as
`None`.  Both conventions are modelled as `Option`. -/
structure Delims where
  fieldSep : Char
  compSep : Char
  repSep : Char
  subCompSep : Option Char
  escSep : Option Char
deriving Repr, DecidableEq

/-- The read-only grammar model that `createXML` queries:
* `groups`: for a group reference, the content list of
  `<groupRef>.CONTENT` and whether it was an `xsd:choice`;
* `segFields`: for a segment code, the `ref` attributes of its
  `<seg>.CONTENT` sequence (`none` for a child without `ref`);
* `fieldTypes`: the fixed `Type` attribute of `<fieldRef>.ATTRIBUTES` in
  `fields.xsd`;
* `dtTypes`: the fixed `Type` attribute of `<ref>.ATTRIBUTES` in
  `datatypes.xsd`;
* `dtComps`: the component `ref` list of a datatype's `xsd:sequence`
  (absent for an atomic datatype). -/
structure Schema where
  groups : List (Str × List GNode × Bool)
  segFields : List (Str × List (Option Str))
  fieldTypes : List (Str × Str)
  dtTypes : List (Str × Str)
  dtComps : List (Str × List Str)
deriving Repr

/-- The per-message decode context: the segment list, the grammar model and
the delimiter set (`bar2xml.py`'s globals `Segments`, the schema roots,
and the separator variables). -/
structure Ctx where
  segments : List Str
  schema : Schema
  d : Delims

/-!
## Escape / character-reference codec (`fixElement` and the regexes)
-/

/-- `[0-9A-Fa-f]`. -/
def isHexDigit (c : Char) : Bool :=
  ('0' ≤ c ∧ c ≤ '9') ∨ ('A' ≤ c ∧ c ≤ 'F') ∨ ('a' ≤ c ∧ c ≤ 'f')

/-- Python `\s` on ASCII text. -/
def pyIsSpace (c : Char) : Bool :=
  c = ' ' ∨ c = '\t' ∨ c = '\n' ∨ c = '\x0B' ∨ c = '\x0C' ∨ c = '\r'

/-- `[0-9]`. -/
def isDigitCh (c : Char) : Bool := '0' ≤ c ∧ c ≤ '9'

/-- Match of `\\M([0-9A-Fa-f][0-9A-Fa-f])+\\` (`M` the marker, `X` or `Z`)
anchored at the start of `s`: the hex characters and the remainder after
the closing backslash.  The hex run must be even, at least two long, and
directly followed by a backslash. -/
def matchRefAt (marker : Char) (s : Str) : Option (Str × Str) :=
  match s with
  | b :: m :: rest =>
    if b = '\\' ∧ m = marker then
      let run := rest.takeWhile isHexDigit
      if run.length ≥ 2 ∧ run.length % 2 = 0 ∧ (rest.drop run.length).head? = some '\\' then
        some (run, rest.drop (run.length + 1))
      else none
    else none
  | _ => none

/-- `re.search` for the marker pattern: the leftmost match, as
`(text before, hex characters, text after)`. -/
def findRef (marker : Char) : Str → Option (Str × Str × Str)
  | [] => none
  | c :: rest =>
    match matchRefAt marker (c :: rest) with
    | some (hex, post) => some ([], hex, post)
    | none =>
      match findRef marker rest with
      | some (pre, hex, post) => some (c :: pre, hex, post)
      | none => none

/-- The replacement text built from the hex run: `'&#x' + pair + ';'` for
each two characters (`for cp in range(0, len(chars), 2)`). -/
def hexRefs : Str → Str
  | a :: b :: rest => '&' :: '#' :: 'x' :: a :: b :: ';' :: hexRefs rest
  | [a] => ['&', '#', 'x', a, ';']
  | [] => []

/-- The `while (charRef := charXref.search(elementText)) is not None` loop:
repeatedly replace the leftmost marker match by its numeric character
references. -/
def replaceRefs (marker : Char) : Nat → Str → Str
  | 0, s => s
  | fuel + 1, s =>
    match findRef marker s with
    | none => s
    | some (pre, hex, post) => replaceRefs marker fuel (pre ++ hexRefs hex ++ post)

/-- The optional `[-+]?` step: split off a leading sign when permitted. -/
def signSplit (allowSign : Bool) (rest1 : Str) : Str × Str :=
  if allowSign then
    match rest1 with
    | c :: r2 => if c = '-' ∨ c = '+' then ([c], r2) else ([], rest1)
    | [] => ([], rest1)
  else ([], rest1)

/-- After the whitespace and optional sign: a non-empty digit run followed
directly by the closing backslash. -/
def numTailAfterSign (ws : Str) (sr : Str × Str) : Option (Str × Str) :=
  if (sr.2.takeWhile isDigitCh).length ≥ 1 ∧
      (sr.2.drop (sr.2.takeWhile isDigitCh).length).head? = some '\\' then
    some (ws ++ sr.1 ++ sr.2.takeWhile isDigitCh,
      sr.2.drop ((sr.2.takeWhile isDigitCh).length + 1))
  else none

/-- `\s*\d+\\` (optionally `[-+]?` before the digits) anchored at the start
of `rest`: the matched text without the closing backslash, and the
remainder after it. -/
def matchNumTail (allowSign : Bool) (rest : Str) : Option (Str × Str) :=
  numTailAfterSign (rest.takeWhile pyIsSpace)
    (signSplit allowSign (rest.drop (rest.takeWhile pyIsSpace).length))

/-- Match of one of the six `xmlReplacements` patterns (`\H\`, `\N\`,
`\.br\`, `\.sp\s*\d+\`, `\.in\s*[-+]?\d+\`, `\.ti\s*[-+]?\d+\`) anchored at
the start of `s`: the captured group (the text between the backslashes) and
the remainder after the closing backslash.  At most one of the six patterns
can match at a given position. -/
def matchEscAt (s : Str) : Option (Str × Str) :=
  match s with
  | '\\' :: 'H' :: '\\' :: post => some (['H'], post)
  | '\\' :: 'N' :: '\\' :: post => some (['N'], post)
  | '\\' :: '.' :: 'b' :: 'r' :: '\\' :: post => some (['.', 'b', 'r'], post)
  | '\\' :: '.' :: 's' :: 'p' :: rest =>
    (matchNumTail false rest).map (fun p => ('.' :: 's' :: 'p' :: p.1, p.2))
  | '\\' :: '.' :: 'i' :: 'n' :: rest =>
    (matchNumTail true rest).map (fun p => ('.' :: 'i' :: 'n' :: p.1, p.2))
  | '\\' :: '.' :: 't' :: 'i' :: rest =>
    (matchNumTail true rest).map (fun p => ('.' :: 't' :: 'i' :: p.1, p.2))
  | _ => none

/-- The leftmost escape match over all six patterns (the
`firstEscape`/`nextEscape` scans of `fixElement`), as
`(text before, captured group, text after)`. -/
def findEsc : Str → Option (Str × Str × Str)
  | [] => none
  | c :: rest =>
    match matchEscAt (c :: rest) with
    | some (grp, post) => some ([], grp, post)
    | none =>
      match findEsc rest with
      | some (pre, grp, post) => some (c :: pre, grp, post)
      | none => none

/-- An `<escape V="grp"/>` element with tail `tl`. -/
def escElem (grp tl : Str) : Node :=
  .elem ("escape".toList) (some grp) none (some tl) []

/-- The `while True` chain of `fixElement`: successive escape elements,
each holding the text up to the next match as its tail. -/
def escChain : Nat → Str → Str → List Node
  | 0, grp, tl => [escElem grp tl]
  | fuel + 1, grp, tl =>
    match findEsc tl with
    | none => [escElem grp tl]
    | some (pre, grp2, post) => escElem grp pre :: escChain fuel grp2 post

/-- `fixElement(thisElement, textType)`: for the three rich-text datatypes
replace the hex character-reference markers (`\X…\` then `\Z…\`) by
numeric character references, then break the text at the recognized escape
codes into direct text plus a chain of `<escape/>` children.  Any other
datatype is returned untouched. -/
def fixNode (thisElement : Node) (textType : Str) : Node :=
  if ¬(textType = "TX".toList ∨ textType = "FT".toList ∨ textType = "CF".toList) then
    thisElement
  else
    match thisElement with
    | .comment t => .comment t
    | .elem tag aV text tail children =>
      let t0 := text.getD []
      let t1 := replaceRefs 'X' (t0.length + 1) t0
      let t2 := replaceRefs 'Z' (t1.length + 1) t1
      match findEsc t2 with
      | none => .elem tag aV (some t2) tail children
      | some (pre, grp, post) =>
        .elem tag aV (some pre) tail (children ++ escChain (post.length + 1) grp post)

/-!
## Bar-to-tree decoder (`createXML`)
-/

/-- Lookup of a fixed `Type` attribute: `.find(...)` returning `None`
followed by `.attrib` raises `AttributeError`. -/
def lookupTypeE (table : List (Str × Str)) (ref : Str) : Except PyErr Str :=
  match table.lookup ref with
  | some t => .ok t
  | none => .error .attributeError

/-- The field datatype, with the dynamic resolution of `varies`
(`OBX.5` from `Fields[1]`, `MFE.4` from `Fields[4]` when present);
`bar2xml.py` lines 226-231. -/
def resolveFieldType (sch : Schema) (seg fieldRef : Str) (Fields : List Str) :
    Except PyErr Str :=
  match lookupTypeE sch.fieldTypes fieldRef with
  | .error e => .error e
  | .ok t0 =>
    if t0 = "varies".toList then
      if seg = "OBX".toList ∧ fieldRef = "OBX.5".toList then pyIdx Fields 1
      else if seg = "MFE".toList ∧ fieldRef = "MFE.4".toList ∧ Fields.length > 4 then
        pyIdx Fields 4
      else .ok t0
    else .ok t0

/-- The subcomponent loop of `createXML` (lines 246-254): skip empty
subcomponents, name the rest by the component datatype's refs, and apply
`fixElement`. -/
def buildSubComponents (sch : Schema) (subrefs : List Str) :
    Nat → List Str → Except PyErr (List Node)
  | _, [] => .ok []
  | k, sub :: rest =>
    if sub = [] then buildSubComponents sch subrefs (k + 1) rest
    else
      match pyIdx subrefs k with
      | .error e => .error e
      | .ok subCompRef =>
        match lookupTypeE sch.dtTypes subCompRef with
        | .error e => .error e
        | .ok subCompType =>
          let subXML := fixNode (.elem subCompRef none (some sub) none []) subCompType
          match buildSubComponents sch subrefs (k + 1) rest with
          | .error e => .error e
          | .ok ns => .ok (subXML :: ns)

/-- The component loop of `createXML` (lines 237-260): skip empty
components; a component whose datatype has components, when a subcomponent
separator is defined, is split further, otherwise it is a leaf passed
through `fixElement`. -/
def buildComponents (sch : Schema) (d : Delims) (comps : List Str) :
    Nat → List Str → Except PyErr (List Node)
  | _, [] => .ok []
  | j, comp :: rest =>
    if comp = [] then buildComponents sch d comps (j + 1) rest
    else
      match pyIdx comps j with
      | .error e => .error e
      | .ok componentRef =>
        match lookupTypeE sch.dtTypes componentRef with
        | .error e => .error e
        | .ok componentType =>
          let componentBits := sch.dtComps.lookup componentType
          let nodeE : Except PyErr Node :=
            match componentBits, d.subCompSep with
            | some subrefs, some scs =>
              match buildSubComponents sch subrefs 0 (pySplit scs comp) with
              | .error e => .error e
              | .ok subs => .ok (.elem componentRef none none none subs)
            | _, _ =>
              .ok (fixNode (.elem componentRef none (some comp) none []) componentType)
          match nodeE with
          | .error e => .error e
          | .ok nd =>
            match buildComponents sch d comps (j + 1) rest with
            | .error e => .error e
            | .ok ns => .ok (nd :: ns)

/-- One repetition of one field (`createXML` lines 223-269): a declared
field resolves its datatype and splits into components when composite
(`FT` composite structure is suppressed, line 233-234); a slot past the
declared layout, or one without a `ref`, becomes a positionally named
leaf.  `xmlSeg = none` models `segmentRoot.find` having returned `None`,
in which case `len(xmlSeg)` raises `TypeError`. -/
def buildFieldRep (sch : Schema) (d : Delims) (seg : Str)
    (xmlSeg : Option (List (Option Str))) (Fields : List Str) (i : Nat)
    (thisField : Str) : Except PyErr Node :=
  match xmlSeg with
  | none => .error .typeError
  | some xs =>
    match xs.get? i with
    | some (some fieldRef) =>
      match resolveFieldType sch seg fieldRef Fields with
      | .error e => .error e
      | .ok fieldType =>
        let dataTypeBits0 := sch.dtComps.lookup fieldType
        let dataTypeBits := if fieldType = "FT".toList then none else dataTypeBits0
        match dataTypeBits with
        | some comps =>
          match buildComponents sch d comps 0 (pySplit d.compSep thisField) with
          | .error e => .error e
          | .ok compNodes => .ok (.elem fieldRef none none none compNodes)
        | none => .ok (fixNode (.elem fieldRef none (some thisField) none []) fieldType)
    | _ => .ok (.elem (seg ++ '.' :: natDigits (i + 1)) none (some thisField) none [])

/-- The repetitions of one non-empty field slot in order. -/
def buildReps (sch : Schema) (d : Delims) (seg : Str)
    (xmlSeg : Option (List (Option Str))) (Fields : List Str) (i : Nat) :
    List Str → Except PyErr (List Node)
  | [] => .ok []
  | r :: rs =>
    match buildFieldRep sch d seg xmlSeg Fields i r with
    | .error e => .error e
    | .ok n =>
      match buildReps sch d seg xmlSeg Fields i rs with
      | .error e => .error e
      | .ok ns => .ok (n :: ns)

/-- The field loop of `createXML` (lines 215-269): skip empty slots; a
slot is split on the repeat separator unless the segment is `MSH` or the
slot index is 1 (line 218). -/
def buildFields (sch : Schema) (d : Delims) (seg : Str)
    (xmlSeg : Option (List (Option Str))) (Fields : List Str) :
    Nat → List Str → Except PyErr (List Node)
  | _, [] => .ok []
  | i, field :: rest =>
    if field = [] then buildFields sch d seg xmlSeg Fields (i + 1) rest
    else
      let fieldReps :=
        if seg ≠ "MSH".toList ∧ i ≠ 1 then pySplit d.repSep field else [field]
      match buildReps sch d seg xmlSeg Fields i fieldReps with
      | .error e => .error e
      | .ok nodes =>
        match buildFields sch d seg xmlSeg Fields (i + 1) rest with
        | .error e => .error e
        | .ok ns => .ok (nodes ++ ns)

/-- Building one matched segment element (`createXML` lines 208-270): the
tag is the first three characters of the raw text, the fields are the
split on the field separator with the header's elided separator field
reinserted at position 1. -/
def buildSegment (ctx : Ctx) (s : Str) : Except PyErr Node :=
  let tag3 := s.take 3
  let Fields0 := pySplit ctx.d.fieldSep s
  let Fields1 :=
    match Fields0 with
    | f0 :: rest => if f0 = "MSH".toList then f0 :: [ctx.d.fieldSep] :: rest else Fields0
    | [] => Fields0
  match Fields1 with
  | [] => .error .indexError
  | seg :: Fields =>
    let xmlSeg := ctx.schema.segFields.lookup seg
    match buildFields ctx.schema ctx.d seg xmlSeg Fields 0 Fields with
    | .error e => .error e
    | .ok children => .ok (.elem tag3 none none none children)

/-- `et.Element(tag)` with the given children appended. -/
def mkElem (tag : Str) (children : List Node) : Node := .elem tag none none none children

/-- One iteration of the `while sequenceAt < len(sequenceList)` loop of
`createXML` (lines 151-285).  `recCreate` is the recursive call to
`createXML` (line 168) and `recLoop` the next loop iteration (the
`continue` statements); `children = none` models the untagged state
(`thisElement is None` / `tagged == False`). -/
def cxBody
    (recCreate : List GNode → Str → Bool → Bool → Nat → Nat →
      Except PyErr (Option Node × Nat))
    (recLoop : List GNode → Nat → Str → Bool → Bool → Nat → Option (List Node) →
      Option Str → Nat → Nat → Except PyErr (Option Node × Nat))
    (ctx : Ctx) (sequenceList : List GNode) (sequenceAt : Nat) (tag : Str)
    (optional isChoice : Bool) (depth : Nat) (children : Option (List Node))
    (lastSeg : Option Str) (occurs segNo : Nat) : Except PyErr (Option Node × Nat) :=
  match sequenceList.get? sequenceAt with
  | none => .ok (children.map (mkElem tag), segNo)
  | some node =>
    match pyIdx ctx.segments segNo with
    | .error e => .error e
    | .ok segText =>
      if node.ref ≠ segText.take 3 then
        if node.ref.length > 3 then
          -- a group reference (lines 154-181)
          match ctx.schema.groups.lookup node.ref with
          | none => .error .configError
          | some (groupList, thisChoice) =>
            match recCreate groupList node.ref (node.minOccurs = "0".toList) thisChoice
                depth segNo with
            | .error e => .error e
            | .ok (some groupXML, segNo2) =>
              let children2 := children.getD [] ++ [groupXML]
              if segNo2 < ctx.segments.length then
                recLoop sequenceList sequenceAt tag optional isChoice depth
                  (some children2) lastSeg occurs segNo2
              else .ok (some (mkElem tag children2), segNo2)
            | .ok (none, segNo2) =>
              if node.minOccurs = "0".toList then
                recLoop sequenceList (sequenceAt + 1) tag optional isChoice depth
                  children lastSeg occurs segNo2
              else .ok (children.map (mkElem tag), segNo2)
        else if node.minOccurs = "0".toList then
          -- mismatch against an optional segment node (lines 183-185)
          recLoop sequenceList (sequenceAt + 1) tag optional isChoice depth
            children lastSeg occurs segNo
        else if optional then
          -- required node inside an optional sequence (lines 188-189)
          .ok (children.map (mkElem tag), segNo)
        else
          -- unexpected segment (lines 191-199)
          let children2 := children.getD [] ++
            [.comment ("Unexpected segment: ".toList ++ segText)]
          if segNo + 1 < ctx.segments.length then
            recLoop sequenceList sequenceAt tag optional isChoice depth
              (some children2) lastSeg occurs (segNo + 1)
          else .ok (some (mkElem tag children2), segNo + 1)
      else
        -- a matching segment (lines 200-284)
        let seg := segText.take 3
        let reset := ¬(lastSeg = some seg)
        let lastSeg2 := if reset then some seg else lastSeg
        let occurs2 := if reset then 0 else occurs
        match buildSegment ctx segText with
        | .error e => .error e
        | .ok segElement =>
          let children2 := children.getD [] ++ [segElement]
          let segNo2 := segNo + 1
          if segNo2 = ctx.segments.length then .ok (some (mkElem tag children2), segNo2)
          else if isChoice then .ok (some (mkElem tag children2), segNo2)
          else
            let occurs3 := occurs2 + 1
            if node.maxOccurs = "unbounded".toList then
              recLoop sequenceList sequenceAt tag optional isChoice depth
                (some children2) lastSeg2 occurs3 segNo2
            else
              match pyNat node.maxOccurs with
              | none => .error .valueError
              | some mo =>
                if occurs3 < mo then
                  recLoop sequenceList sequenceAt tag optional isChoice depth
                    (some children2) lastSeg2 occurs3 segNo2
                else
                  recLoop sequenceList (sequenceAt + 1) tag optional isChoice depth
                    (some children2) lastSeg2 occurs3 segNo2

/-- The loop of `createXML`, fuel-driven: one unit of fuel per iteration.
The group branch re-enters `createXML`: the depth guard of lines 138-144
followed by a fresh walk of the group's own content at `depth + 1` (the
`depth += 1` of line 145). -/
def cxLoop (ctx : Ctx) : Nat → List GNode → Nat → Str → Bool → Bool → Nat →
    Option (List Node) → Option Str → Nat → Nat → Except PyErr (Option Node × Nat)
  | 0 => fun _ _ _ _ _ _ _ _ _ _ => .error .outOfFuel
  | fuel + 1 =>
    cxBody
      (fun gl gtag gopt gch d sn =>
        if d > 200 then
          match pyIdx ctx.segments sn with
          | .error e => .error e
          | .ok s => .ok (some (mkElem gtag [.comment s]), sn + 1)
        else cxLoop ctx fuel gl 0 gtag gopt gch (d + 1) none none 0 sn)
      (cxLoop ctx fuel) ctx

/-- `createXML(sequenceList, tag, optional, isChoice, depth)`: the depth
guard (lines 138-144) wraps the current segment in a comment, advances the
cursor and returns; otherwise the positional walk over the sequence list
runs at `depth + 1`.  The returned pair is (`thisElement`, the new value
of the global `segmentNo`). -/
def createXML (ctx : Ctx) (fuel : Nat) (sequenceList : List GNode) (tag : Str)
    (optional isChoice : Bool) (depth segNo : Nat) : Except PyErr (Option Node × Nat) :=
  if depth > 200 then
    match pyIdx ctx.segments segNo with
    | .error e => .error e
    | .ok s => .ok (some (mkElem tag [.comment s]), segNo + 1)
  else cxLoop ctx fuel sequenceList 0 tag optional isChoice (depth + 1) none none 0 segNo

/-- Unfolding one loop iteration: the group branch's recursive call is
exactly `createXML` at the remaining fuel. -/
theorem cxLoop_succ (ctx : Ctx) (fuel : Nat) :
    cxLoop ctx (fuel + 1) = cxBody (createXML ctx fuel) (cxLoop ctx fuel) ctx := rfl

/-!
## Tree-to-bar encoder (`getSegment`, `getField`, `getComponent`)
-/

/-- Python `tag[dotAt + 1:]` with `dotAt = tag.find('.')`: the text after
the first dot, or the whole string when there is none (`find` returns -1,
so the slice starts at 0). -/
def afterDot (t : Str) : Str :=
  match t.findIdx? (fun c => c = '.') with
  | some k => t.drop (k + 1)
  | none => t

/-- Does the first child carry the tag `escape`?  (For a comment child the
Python comparison `child.tag == 'escape'` compares a function with a
string and is false.) -/
def headIsEscape (children : List Node) : Bool :=
  match children with
  | .elem t _ _ _ _ :: _ => t = "escape".toList
  | _ => false

/-- The escape-reconstruction loop of `getField` (lines 148-163): every
child must be an `<escape>` element with a `V` attribute, and the escape
separator must be defined; each contributes
`escSep + V + escSep + tail`. -/
def encEscLoop (d : Delims) : List Node → Except PyErr Str
  | [] => .ok []
  | fieldEsc :: rest =>
    match fieldEsc with
    | .comment _ => .error .dataError
    | .elem etag aV _ etail _ =>
      if etag ≠ "escape".toList then .error .dataError
      else
        match aV with
        | none => .error .dataError
        | some v =>
          match d.escSep with
          | none => .error .dataError
          | some esc =>
            match encEscLoop d rest with
            | .error e => .error e
            | .ok s => .ok (esc :: (v ++ esc :: etail.getD []) ++ s)

/-- The always-failing escape loop of `getComponent`'s subcomponent branch
(lines 215-231): the checks are made against `subComp` itself — its tag,
which carries the subcomponent name, and its attributes — instead of
against the `<escape>` child, so a subcomponent with children reaches
`sys.exit(EX_DATAERR)` unless its own tag is literally `escape`. -/
def encSubEscLoop (d : Delims) (stag : Str) (saV : Option Str) :
    List Node → Except PyErr Str
  | [] => .ok []
  | subCompEsc :: rest =>
    if stag ≠ "escape".toList then .error .dataError
    else
      match saV with
      | none => .error .dataError
      | some _ =>
        match d.escSep with
        | none => .error .dataError
        | some esc =>
          match subCompEsc with
          | .comment _ => .error .keyError
          | .elem _ eV _ etail _ =>
            match eV with
            | none => .error .keyError
            | some v =>
              match encSubEscLoop d stag saV rest with
              | .error e => .error e
              | .ok s => .ok (esc :: (v ++ esc :: etail.getD []) ++ s)

/-- The subcomponent loop of `getComponent` (lines 206-231): pad skipped
numbers with the subcomponent separator (`None` there raises `TypeError`),
append the subcomponent's text, then run the (mis-targeted) escape
loop when it has children. -/
def encSubLoop (d : Delims) : Nat → List Node → Except PyErr Str
  | _, [] => .ok []
  | lastSubCompNo, subComp :: rest =>
    match subComp with
    | .comment _ => .error .attributeError
    | .elem stag saV stext _ schildren =>
      match pyNat (afterDot stag) with
      | none => .error .valueError
      | some thisSubCompNo =>
        match (if thisSubCompNo ≤ lastSubCompNo then .ok ([] : Str)
               else
                 match d.subCompSep with
                 | none => .error .typeError
                 | some sc => .ok (List.replicate (thisSubCompNo - lastSubCompNo) sc) :
                Except PyErr Str) with
        | .error e => .error e
        | .ok pad =>
          match stext with
          | none => .error .typeError
          | some st =>
            match (if schildren.isEmpty then .ok ([] : Str)
                   else encSubEscLoop d stag saV schildren : Except PyErr Str) with
            | .error e => .error e
            | .ok escPart =>
              match encSubLoop d (max lastSubCompNo thisSubCompNo) rest with
              | .error e => .error e
              | .ok rest2 => .ok (pad ++ st ++ escPart ++ rest2)

/-- `getComponent(component)` (lines 180-232): a childless component, or
one whose first child is an `<escape>`, starts from its text — but the
escape branch then reads `.tag` off the string built so far and raises
`AttributeError` (line 189); otherwise the subcomponent walk runs. -/
def encGetComponent (d : Delims) (component : Node) : Except PyErr Str :=
  match component with
  | .comment t => .ok t
  | .elem _ _aV text _ children =>
    if children.isEmpty ∨ headIsEscape children then
      match text with
      | none => .error .typeError
      | some t =>
        if children.isEmpty then .ok t
        else .error .attributeError
    else encSubLoop d 1 children

/-- The component loop of `getField` (lines 165-177): pad skipped
component numbers with the component separator and delegate to
`getComponent` (the `len(thisComponent) is None` test on line 173 is
always false, so the `else` branch always runs). -/
def encCompLoop (d : Delims) : Nat → List Node → Except PyErr Str
  | _, [] => .ok []
  | lastCompNo, comp :: rest =>
    match comp with
    | .comment _ => .error .attributeError
    | .elem ctag _ _ _ _ =>
      match pyNat (afterDot ctag) with
      | none => .error .valueError
      | some thisCompNo =>
        let pad := List.replicate (thisCompNo - lastCompNo) d.compSep
        match encGetComponent d comp with
        | .error e => .error e
        | .ok cs =>
          match encCompLoop d (max lastCompNo thisCompNo) rest with
          | .error e => .error e
          | .ok rest2 => .ok (pad ++ cs ++ rest2)

/-- `getField(thisFieldElement)` (lines 139-177): a childless field, or one
whose first child is an `<escape>`, emits its text followed by the
reconstructed escapes; otherwise the component walk runs. -/
def encGetField (d : Delims) (e : Node) : Except PyErr Str :=
  match e with
  | .comment t => .ok t
  | .elem _ _aV text _ children =>
    if children.isEmpty ∨ headIsEscape children then
      match text with
      | none => .error .typeError
      | some t =>
        if children.isEmpty then .ok t
        else
          match encEscLoop d children with
          | .error e => .error e
          | .ok s => .ok (t ++ s)
    else encCompLoop d 1 children

/-- The field loop of `getSegment` (lines 123-136): `MSH.1` only sets
`lastField` to 1; every other child is placed by the number after its
first four characters, with one repeat separator for a repeated number and
field separators for skipped numbers. -/
def encFieldLoop (d : Delims) : Nat → List Node → Except PyErr Str
  | _, [] => .ok []
  | lastField, field :: rest =>
    match field with
    | .comment _ => .error .typeError
    | .elem ftag _ _ _ _ =>
      if ftag = "MSH.1".toList then encFieldLoop d 1 rest
      else
        match pyNat (ftag.drop 4) with
        | none => .error .valueError
        | some fieldNo =>
          let sepPart :=
            if fieldNo = lastField then [d.repSep]
            else List.replicate (fieldNo - lastField) d.fieldSep
          let lastField2 := if fieldNo = lastField then lastField else max lastField fieldNo
          match encGetField d field with
          | .error e => .error e
          | .ok fs =>
            match encFieldLoop d lastField2 rest with
            | .error e => .error e
            | .ok rest2 => .ok (sepPart ++ fs ++ rest2)

mutual

/-- `getSegment(thisSegElement)` (lines 112-136): a group element (tag
longer than three characters) contributes the segments of its children in
order; a segment element contributes its tag followed by its encoded
fields.  A comment reaches `len()` of its function tag and raises
`TypeError`. -/
def encGetSegment (d : Delims) : Node → Except PyErr (List Str)
  | .comment _ => .error .typeError
  | .elem tag _aV _text _tail children =>
    if tag.length > 3 then encSegList d children
    else
      match encFieldLoop d 0 children with
      | .error e => .error e
      | .ok s => .ok [tag ++ s]

/-- The segments contributed by a list of children, in document order
(the appends to the global `Segments`). -/
def encSegList (d : Delims) : List Node → Except PyErr (List Str)
  | [] => .ok []
  | c :: rest =>
    match encGetSegment d c with
    | .error e => .error e
    | .ok l =>
      match encSegList d rest with
      | .error e => .error e
      | .ok ls => .ok (l ++ ls)

end

/-- The segment assembly of `xml2bar.py`'s main block (lines 347-351): the
segment strings of every child of the message root, in order. -/
def encodeMessage (d : Delims) (root : Node) : Except PyErr (List Str) :=
  match root with
  | .comment _ => .error .typeError
  | .elem _ _ _ _ children => encSegList d children

/-!
## Envelope parsing: delimiter extraction and structure resolution
(`bar2xml.py` main block)
-/

theorem pySplit_not_mem (sep : Char) (t : Str) (h : sep ∉ t) : pySplit sep t = [t] := by
  induction t with
  | nil => rfl
  | cons c rest ih =>
    have hc : ¬c = sep := fun hq => h (hq ▸ List.mem_cons_self c rest)
    have hrest : sep ∉ rest := fun hq => h (List.mem_cons_of_mem c hq)
    simp only [pySplit, ih hrest]
    simp [hc]

theorem pySplit_append_cons (sep : Char) (t rest : Str) (h : sep ∉ t) :
    pySplit sep (t ++ sep :: rest) = t :: pySplit sep rest := by
  induction t with
  | nil =>
    simp only [List.nil_append, pySplit]
    cases hq : pySplit sep rest with
    | nil => exact absurd hq (pySplit_ne_nil sep rest)
    | cons w ws => simp
  | cons c t2 ih =>
    have hc : ¬c = sep := fun hq => h (hq ▸ List.mem_cons_self c t2)
    have ht2 : sep ∉ t2 := fun hq => h (List.mem_cons_of_mem c hq)
    simp only [List.cons_append, pySplit]
    simp only [List.append_eq]
    rw [ih ht2]
    simp [hc]

/-- Lines 509-524 of `bar2xml.py`: from the raw `MSH.2` field derive
`(compSep, repSep, escChar, subCompSep)`.  `escChar` and `subCompSep` stay
`''` when the field is too short; fewer than 2 characters is
`sys.exit(EX_DATAERR)`. -/
def parseEncodingChars (msh2 : Str) : Except PyErr (Char × Char × Str × Str) :=
  let _subCompSep0 := if msh2.length < 4 then ([] : Str) else (msh2.drop 3).take 1
  let escChar := if msh2.length < 3 then ([] : Str) else (msh2.drop 2).take 1
  let subCompSep := if msh2.length < 3 then ([] : Str) else (msh2.drop 3).take 1
  if msh2.length < 2 then .error .dataError
  else
    match msh2 with
    | c0 :: c1 :: _ => .ok (c0, c1, escChar, subCompSep)
    | _ => .error .dataError

/-- Lines 507-524 of `bar2xml.py` in one piece: the field separator is the
character after the segment code, the remaining separators come from the
second field. -/
def extractDelims (MSH : Str) : Except PyErr (Char × Char × Char × Str × Str) :=
  match (MSH.drop 3).take 1 with
  | [] => .error .valueError
  | fs :: _ =>
    match pyIdx (pySplit fs MSH) 1 with
    | .error e => .error e
    | .ok msh2 =>
      match parseEncodingChars msh2 with
      | .error e => .error e
      | .ok (c, r, esc, sub) => .ok (fs, c, r, esc, sub)

/-- Lines 534-573 of `bar2xml.py`: resolve the message structure name from
the raw `MSH.9` field, the component separator and the trigger table
(`hl7messageStructures`). -/
def resolveStructure (index : List (Str × List (Str × Str))) (compSep : Char)
    (struct : Str) : Except PyErr Str :=
  if struct = [] then .error .dataError
  else if struct = "ACK".toList then .ok ("ACK".toList)
  else
    let typeParts := pySplit compSep struct
    if typeParts.length = 1 then .error .dataError
    else
      match typeParts with
      | msgType :: msgTrigger :: restParts =>
        let msgStruct0 := if typeParts.length = 3 then restParts.getD 0 [] else []
        if msgStruct0 ≠ [] then .ok msgStruct0
        else if msgType = [] then .error .dataError
        else if msgTrigger = [] then
          if msgType = "ACK".toList then .ok ("ACK".toList) else .error .dataError
        else
          match index.lookup msgType with
          | none => .error .dataError
          | some tbl =>
            match tbl.lookup msgTrigger with
            | none => .error .dataError
            | some st => .ok st
      | _ => .error .indexError

/-!
## The top-level invocation of `createXML`

Line 592 of `bar2xml.py` reads `createXML(segmentList, msgStruct, False, 0)`
while line 123 declares `def createXML(sequenceList, tag, optional,
isChoice, depth)`: the call supplies four positional arguments for five
required positional parameters.
-/

/-- The required positional parameters of `createXML` (line 123). -/
def createXMLParams : List String :=
  ["sequenceList", "tag", "optional", "isChoice", "depth"]

/-- The positional arguments of the top-level call (line 592). -/
def createXMLMainCallArgs : List String :=
  ["segmentList", "msgStruct", "False", "0"]

/-!
## Helper lemmas
-/

theorem pyIdx_eq_ok {l : List α} {i : Nat} {a : α} (h : l.get? i = some a) :
    pyIdx l i = .ok a := by
  have hlt : i < l.length := List.get?_eq_some.1 h |>.1
  have ha : l[i] = a := by
    have := List.get?_eq_some.1 h
    obtain ⟨h1, h2⟩ := this
    simpa using h2
  simp [pyIdx, hlt, ha]

/-- A string of the shape `t ++ sep :: g ++ sep :: st` with `st` non-empty
cannot be the three-character string `ACK` (its two separators would have
to be two distinct characters at once). -/
theorem threeParts_ne_ACK (sep : Char) (t g st : Str) (hst : st ≠ []) :
    t ++ sep :: (g ++ sep :: st) ≠ "ACK".toList := by
  intro h
  have hACK : ("ACK".toList : Str) = ['A', 'C', 'K'] := rfl
  rw [hACK] at h
  have hlen := congrArg List.length h
  simp only [List.length_append, List.length_cons, List.length_nil] at hlen
  have hst1 : st.length ≥ 1 := by
    cases st with
    | nil => exact absurd rfl hst
    | cons a b => simp
  have ht : t.length = 0 := by omega
  have hg : g.length = 0 := by omega
  rw [List.length_eq_zero] at ht hg
  subst ht; subst hg
  simp only [List.nil_append] at h
  have h1 : sep = 'A' := (List.cons_eq_cons.1 h).1
  have h2 : sep = 'C' := (List.cons_eq_cons.1 (List.cons_eq_cons.1 h).2).1
  rw [h1] at h2
  exact absurd h2 (by decide)

/-!
## Claim theorems
-/

/-- C2: the bar-to-tree conversion entry point.  `bar2xml.py` line 123
declares `createXML` with five required positional parameters, but the
top-level invocation on line 592 passes only four positional arguments, so
Python raises `TypeError` at the call — an unhandled exception before any
tree is produced — for every message whose envelope parsing and structure
resolution succeed.  This theorem records the arity mismatch. -/
theorem createXML_main_call_arity_mismatch :
    createXMLMainCallArgs.length < createXMLParams.length := by decide

/-- C5: delimiter extraction from the header's encoding-characters field
(`bar2xml.py` lines 509-524).  The four-character source field `^~\&`
yields componentSep `^`, repeatSep `~`, escapeSep `\` and subComponentSep
`&`; any two-character source field leaves escapeSep and subComponentSep
absent (`''`); any source field of fewer than two characters fails with a
DataFormatError exit. -/
theorem parseEncodingChars_spec :
    parseEncodingChars ("^~\\&".toList) = .ok ('^', '~', "\\".toList, "&".toList)
    ∧ (∀ c0 c1 : Char, parseEncodingChars [c0, c1] = .ok (c0, c1, [], []))
    ∧ (∀ s : Str, s.length < 2 → parseEncodingChars s = .error .dataError) := by
  refine ⟨by decide, fun c0 c1 => by simp [parseEncodingChars], fun s hs => ?_⟩
  match s with
  | [] => rfl
  | [c] => rfl
  | a :: b :: t => simp at hs; omega

/-- C5 witness: the third conjunct applied to the one-character source
field `^`. -/
theorem parseEncodingChars_spec_witness :
    ("^".toList : Str).length < 2 ∧ parseEncodingChars ("^".toList) = .error .dataError :=
  ⟨by decide, parseEncodingChars_spec.2.2 ("^".toList) (by decide)⟩

/-- C6: structure resolution from the header's message-type field
(`bar2xml.py` lines 534-573).  In order: an explicitly given non-empty
third component is used verbatim for every trigger table; bare `ACK` (and
`ACK` with an empty trigger) resolves to `ACK` for every trigger table,
without consulting it; an empty field, or an empty code without an
explicit structure, is a DataFormatError; a missing trigger with any other
code is a DataFormatError (with or without a trailing separator); and
otherwise the `(code, trigger)` pair is looked up in the trigger table,
absence at either level being a DataFormatError. -/
theorem resolveStructure_spec :
    (∀ (index : List (Str × List (Str × Str))) (sep : Char) (t g st : Str),
      sep ∉ t → sep ∉ g → sep ∉ st → st ≠ [] →
      resolveStructure index sep (t ++ sep :: (g ++ sep :: st)) = .ok st)
    ∧ (∀ (index : List (Str × List (Str × Str))) (sep : Char),
      resolveStructure index sep ("ACK".toList) = .ok ("ACK".toList))
    ∧ (∀ (index : List (Str × List (Str × Str))) (sep : Char),
      sep ∉ ("ACK".toList : Str) →
      resolveStructure index sep ("ACK".toList ++ [sep]) = .ok ("ACK".toList))
    ∧ (∀ (index : List (Str × List (Str × Str))) (sep : Char),
      resolveStructure index sep [] = .error .dataError)
    ∧ (∀ (index : List (Str × List (Str × Str))) (sep : Char) (g : Str),
      sep ∉ g → sep :: g ≠ "ACK".toList →
      resolveStructure index sep (sep :: g) = .error .dataError)
    ∧ (∀ (index : List (Str × List (Str × Str))) (sep : Char) (t : Str),
      sep ∉ t → t ≠ [] → t ≠ "ACK".toList → t ++ [sep] ≠ "ACK".toList →
      resolveStructure index sep (t ++ [sep]) = .error .dataError)
    ∧ (∀ (index : List (Str × List (Str × Str))) (sep : Char) (t : Str),
      sep ∉ t → t ≠ [] → t ≠ "ACK".toList →
      resolveStructure index sep t = .error .dataError)
    ∧ (∀ (index : List (Str × List (Str × Str))) (sep : Char) (t g : Str),
      sep ∉ t → sep ∉ g → t ≠ [] → g ≠ [] → t ++ sep :: g ≠ "ACK".toList →
      resolveStructure index sep (t ++ sep :: g) =
        (match index.lookup t with
         | none => Except.error .dataError
         | some tbl =>
           match tbl.lookup g with
           | none => Except.error .dataError
           | some st => Except.ok st)) := by
  refine ⟨?_, ?_, ?_, ?_, ?_, ?_, ?_, ?_⟩
  · intro index sep t g st ht hg hst hstne
    have hsplit : pySplit sep (t ++ sep :: (g ++ sep :: st)) = [t, g, st] := by
      rw [pySplit_append_cons sep t _ ht, pySplit_append_cons sep g _ hg,
        pySplit_not_mem sep st hst]
    have hne : t ++ sep :: (g ++ sep :: st) ≠ ([] : Str) := by simp
    have hnACK := threeParts_ne_ACK sep t g st hstne
    simp only [resolveStructure]
    rw [if_neg hne, if_neg hnACK, hsplit]
    simp [hstne]
  · intro index sep
    rfl
  · intro index sep hsep
    have hsplit : pySplit sep ("ACK".toList ++ [sep]) = ["ACK".toList, []] := by
      have h1 : ("ACK".toList ++ [sep] : Str) = "ACK".toList ++ sep :: [] := rfl
      rw [h1, pySplit_append_cons sep _ _ hsep]
      rfl
    have hne : ("ACK".toList ++ [sep] : Str) ≠ ([] : Str) := by simp
    have hnACK : ("ACK".toList ++ [sep] : Str) ≠ "ACK".toList := by
      intro h
      have := congrArg List.length h
      simp at this
    simp only [resolveStructure]
    rw [if_neg hne, if_neg hnACK, hsplit]
    simp
  · intro index sep
    rfl
  · intro index sep g hg hne
    have hsplit : pySplit sep (sep :: g) = [[], g] := by
      have h1 : (sep :: g : Str) = [] ++ sep :: g := rfl
      rw [h1, pySplit_append_cons sep [] g (by simp), pySplit_not_mem sep g hg]
    have hnil : (sep :: g : Str) ≠ ([] : Str) := by simp
    simp only [resolveStructure]
    rw [if_neg hnil, if_neg hne, hsplit]
    simp
  · intro index sep t ht htne htACK hraw
    have hsplit : pySplit sep (t ++ [sep]) = [t, []] := by
      have h1 : (t ++ [sep] : Str) = t ++ sep :: [] := rfl
      rw [h1, pySplit_append_cons sep t [] ht]
      rfl
    have hnil : (t ++ [sep] : Str) ≠ ([] : Str) := by simp
    have hACKl : ("ACK".toList : Str) = ['A', 'C', 'K'] := rfl
    have htACK2 : t ≠ ['A', 'C', 'K'] := by rw [← hACKl]; exact htACK
    simp only [resolveStructure]
    rw [if_neg hnil, if_neg hraw, hsplit]
    simp [htne, htACK, htACK2]
  · intro index sep t ht htne htACK
    have hsplit : pySplit sep t = [t] := pySplit_not_mem sep t ht
    simp only [resolveStructure]
    rw [if_neg htne, if_neg htACK, hsplit]
    simp
  · intro index sep t g ht hg htne hgne hnACK
    have hsplit : pySplit sep (t ++ sep :: g) = [t, g] := by
      rw [pySplit_append_cons sep t g ht, pySplit_not_mem sep g hg]
    have hnil : (t ++ sep :: g : Str) ≠ ([] : Str) := by simp
    simp only [resolveStructure]
    rw [if_neg hnil, if_neg hnACK, hsplit]
    simp [htne, hgne]

/-- C6 witness: the conjuncts applied at concrete inputs — explicit
structure `ADT^A01^ADT_A01`, bare `ACK`, and the indexed lookup
`ADT^A01` against a one-entry trigger table. -/
theorem resolveStructure_spec_witness :
    ('^' ∉ ("ADT".toList : Str)) ∧
    resolveStructure [] '^' ("ADT".toList ++ '^' :: ("A01".toList ++ '^' :: "ADT_A01".toList))
      = .ok ("ADT_A01".toList) ∧
    resolveStructure [] '^' ("ACK".toList) = .ok ("ACK".toList) ∧
    resolveStructure [("ADT".toList, [("A01".toList, "ADT_A01".toList)])] '^'
      ("ADT".toList ++ '^' :: "A01".toList) = .ok ("ADT_A01".toList) := by
  refine ⟨by decide, ?_, resolveStructure_spec.2.1 [] '^', ?_⟩
  · exact resolveStructure_spec.1 [] '^' _ _ _ (by decide) (by decide) (by decide) (by decide)
  · rw [resolveStructure_spec.2.2.2.2.2.2.2 _ '^' ("ADT".toList) ("A01".toList)
      (by decide) (by decide) (by decide) (by decide) (by decide)]
    rfl

/-- An empty grammar model, for concrete instantiations. -/
def trivialSchema : Schema := ⟨[], [], [], [], []⟩

/-- The standard HL7 delimiter set `|^~\&`. -/
def sampleDelims : Delims := ⟨'|', '^', '~', some '&', some '\\'⟩

/-- With a segment layout that declares no fields, every repetition becomes
one positionally named leaf. -/
theorem buildReps_undef (sch : Schema) (d : Delims) (seg : Str) (Fields : List Str)
    (i : Nat) (rs : List Str) :
    buildReps sch d seg (some []) Fields i rs =
      .ok (rs.map (fun r => Node.elem (seg ++ '.' :: natDigits (i + 1)) none (some r) none [])) := by
  induction rs with
  | nil => rfl
  | cons r rest ih => simp [buildReps, buildFieldRep, ih]

/-- C3 (amended): the repeat-split rule of `createXML` line 218 is
`seg != 'MSH' and i != 1`: a non-empty slot is split on the repeat
separator only when the segment is not the header AND the slot index is
not 1 — so every field of the header segment is exempt, and so is the
second slot of every segment.  Observed through `buildFields` with an
empty declared layout: the slot produces exactly one leaf per repetition,
where the repetitions are the split only under that conjunction. -/
theorem buildFields_repeat_split_rule (sch : Schema) (d : Delims) (seg : Str)
    (Fields : List Str) (i : Nat) (field : Str) (h : field ≠ []) :
    buildFields sch d seg (some []) Fields i [field] =
      .ok ((if seg ≠ "MSH".toList ∧ i ≠ 1 then pySplit d.repSep field else [field]).map
        (fun r => Node.elem (seg ++ '.' :: natDigits (i + 1)) none (some r) none [])) := by
  simp only [buildFields]
  rw [if_neg h, buildReps_undef]
  simp [buildFields]

/-- C3 witness: the rule applied to a repeating third field of a `PID`
segment, which is split into two leaves. -/
theorem buildFields_repeat_split_rule_witness :
    ("a~b".toList : Str) ≠ [] ∧
    buildFields trivialSchema sampleDelims ("PID".toList) (some []) [] 2 ["a~b".toList] =
      .ok [Node.elem ("PID.3".toList) none (some ("a".toList)) none [],
           Node.elem ("PID.3".toList) none (some ("b".toList)) none []] := by
  refine ⟨by decide, ?_⟩
  rw [buildFields_repeat_split_rule trivialSchema sampleDelims ("PID".toList) [] 2
    ("a~b".toList) (by decide)]

  rfl

/-- C3 counterexample: the claim exempts only the header's second field
and asserts that a non-header field at slot index 1 (the second slot) is
split on the repeat separator.  The code does not split it: slot 1 of a
`PID` segment holding `a~b` yields a single leaf carrying the unsplit
text, although the slot splits into two repetitions. -/
theorem fieldRep_split_exemption_counterexample :
    buildFields trivialSchema sampleDelims ("PID".toList) (some []) [] 1 ["a~b".toList] =
      .ok [Node.elem ("PID.2".toList) none (some ("a~b".toList)) none []]
    ∧ (pySplit '~' ("a~b".toList)).length = 2
    ∧ buildFields trivialSchema sampleDelims ("MSH".toList) (some []) [] 3 ["x~y".toList] =
      .ok [Node.elem ("MSH.4".toList) none (some ("x~y".toList)) none []] :=
  ⟨rfl, by decide, rfl⟩

/-- C4: the mismatch handling of `createXML` (lines 182-199), for every
decoder state.  When the next unconsumed segment's code mismatches a
required (`minOccurs != '0'`) segment node of a non-optional sequence, the
loop appends an "Unexpected segment" comment, advances the cursor by
exactly one, and retries the same grammar position (same `sequenceAt`),
returning what was built rather than failing when the input is exhausted;
when the mismatched node is optional, the grammar position advances and
the cursor stays unchanged. -/
theorem cxLoop_mismatch_spec :
    ∀ (ctx : Ctx) (fuel : Nat) (seqList : List GNode) (sAt : Nat) (tag : Str)
      (isCh : Bool) (depth : Nat) (ch : Option (List Node)) (lastSeg : Option Str)
      (occ segNo : Nat) (node : GNode) (segText : Str),
      seqList.get? sAt = some node →
      ctx.segments.get? segNo = some segText →
      node.ref ≠ segText.take 3 →
      ¬node.ref.length > 3 →
      ((node.minOccurs ≠ "0".toList →
        cxLoop ctx (fuel + 1) seqList sAt tag false isCh depth ch lastSeg occ segNo =
          (let ch2 := ch.getD [] ++ [Node.comment ("Unexpected segment: ".toList ++ segText)]
           if segNo + 1 < ctx.segments.length then
             cxLoop ctx fuel seqList sAt tag false isCh depth (some ch2) lastSeg occ (segNo + 1)
           else .ok (some (mkElem tag ch2), segNo + 1)))
      ∧ (node.minOccurs = "0".toList →
        ∀ optional : Bool,
          cxLoop ctx (fuel + 1) seqList sAt tag optional isCh depth ch lastSeg occ segNo =
            cxLoop ctx fuel seqList (sAt + 1) tag optional isCh depth ch lastSeg occ segNo)) := by
  intro ctx fuel seqList sAt tag isCh depth ch lastSeg occ segNo node segText hget hseg hmis hlen
  have hidx := pyIdx_eq_ok hseg
  constructor
  · intro hreq
    rw [cxLoop_succ]
    simp only [cxBody, hget, hidx]
    rw [if_pos hmis, if_neg hlen, if_neg hreq]
    rfl
  · intro hopt optional
    rw [cxLoop_succ]
    simp only [cxBody, hget, hidx]
    rw [if_pos hmis, if_neg hlen, if_pos hopt]

/-- C4 witness: a one-node grammar requiring `MSA` against a single `PID`
segment — the required-mismatch equation and, for an optional variant of
the node, the optional-mismatch equation, both instantiated. -/
theorem cxLoop_mismatch_spec_witness :
    (([⟨"MSA".toList, "1".toList, "1".toList⟩] : List GNode).get? 0 =
      some ⟨"MSA".toList, "1".toList, "1".toList⟩) ∧
    cxLoop ⟨["PID|x".toList], trivialSchema, sampleDelims⟩ 8
        [⟨"MSA".toList, "1".toList, "1".toList⟩] 0 ("ACK".toList) false false 1
        none none 0 0 =
      .ok (some (mkElem ("ACK".toList)
        [Node.comment ("Unexpected segment: ".toList ++ "PID|x".toList)]), 1) ∧
    cxLoop ⟨["PID|x".toList], trivialSchema, sampleDelims⟩ 8
        [⟨"MSA".toList, "0".toList, "1".toList⟩] 0 ("ACK".toList) true false 1
        none none 0 0 =
      cxLoop ⟨["PID|x".toList], trivialSchema, sampleDelims⟩ 7
        [⟨"MSA".toList, "0".toList, "1".toList⟩] 1 ("ACK".toList) true false 1
        none none 0 0 := by
  refine ⟨by decide, ?_, ?_⟩
  · have h := (cxLoop_mismatch_spec ⟨["PID|x".toList], trivialSchema, sampleDelims⟩ 7
      [⟨"MSA".toList, "1".toList, "1".toList⟩] 0 ("ACK".toList) false 1 none none 0 0
      ⟨"MSA".toList, "1".toList, "1".toList⟩ ("PID|x".toList) rfl rfl (by decide)
      (by decide)).1 (by decide)
    rw [h]
    rfl
  · exact (cxLoop_mismatch_spec ⟨["PID|x".toList], trivialSchema, sampleDelims⟩ 7
      [⟨"MSA".toList, "0".toList, "1".toList⟩] 0 ("ACK".toList) false 1 none none 0 0
      ⟨"MSA".toList, "0".toList, "1".toList⟩ ("PID|x".toList) rfl rfl (by decide)
      (by decide)).2 rfl true

/-- C9: the depth guard of `createXML` (lines 138-144), for every decoder
state and every fuel value (in particular independently of the grammar
shape and of any recursion budget): a call at depth greater than 200
returns immediately with an element wrapping the current segment in a
comment, and the cursor advanced by exactly one. -/
theorem createXML_depth_guard :
    ∀ (ctx : Ctx) (fuel : Nat) (seqList : List GNode) (tag : Str) (opt isCh : Bool)
      (depth segNo : Nat) (segText : Str),
      depth > 200 → ctx.segments.get? segNo = some segText →
      createXML ctx fuel seqList tag opt isCh depth segNo =
        .ok (some (mkElem tag [Node.comment segText]), segNo + 1) := by
  intro ctx fuel seqList tag opt isCh depth segNo segText hdepth hseg
  simp only [createXML]
  rw [if_pos hdepth, pyIdx_eq_ok hseg]

/-- C9 witness: the guard applied with zero fuel at depth 201 on a cyclic
grammar (a group that contains itself), which nevertheless returns at
once. -/
theorem createXML_depth_guard_witness :
    (201 > 200) ∧
    createXML ⟨["PID|x".toList],
        ⟨[("LOOP".toList, [⟨"LOOP".toList, "1".toList, "1".toList⟩], false)], [], [], [], []⟩,
        sampleDelims⟩ 0
        [⟨"LOOP".toList, "1".toList, "1".toList⟩] ("LOOP".toList) false false 201 0 =
      .ok (some (mkElem ("LOOP".toList) [Node.comment ("PID|x".toList)]), 1) :=
  ⟨by decide, createXML_depth_guard _ 0 _ _ false false 201 0 ("PID|x".toList)
    (by decide) rfl⟩

/-- C7: the escape chain.  Decoding the flat text `abc\H\bold\N\after` in
a leaf of any of the three rich-text datatypes yields direct text `abc`,
an `<escape V="H"/>` with tail `bold` and an `<escape V="N"/>` with tail
`after`; re-encoding that leaf through `getField` (with the backslash
escape separator) reproduces `abc\H\bold\N\after` exactly; `fixElement`
returns a leaf of any other datatype untouched. -/
theorem fixNode_escape_chain_spec :
    (∀ (tag : Str) (aV tail : Option Str) (tt : Str),
      tt = "TX".toList ∨ tt = "FT".toList ∨ tt = "CF".toList →
      fixNode (.elem tag aV (some ("abc\\H\\bold\\N\\after".toList)) tail []) tt =
        .elem tag aV (some ("abc".toList)) tail
          [escElem ("H".toList) ("bold".toList), escElem ("N".toList) ("after".toList)])
    ∧ (∀ d : Delims, d.escSep = some '\\' →
      encGetField d (.elem ("OBX.5".toList) none (some ("abc".toList)) none
          [escElem ("H".toList) ("bold".toList), escElem ("N".toList) ("after".toList)]) =
        .ok ("abc\\H\\bold\\N\\after".toList))
    ∧ (∀ (n : Node) (tt : Str),
      ¬(tt = "TX".toList ∨ tt = "FT".toList ∨ tt = "CF".toList) → fixNode n tt = n) := by
  refine ⟨?_, ?_, ?_⟩
  · intro tag aV tail tt htt
    rcases htt with h | h | h <;> subst h <;> rfl
  · intro d hd
    simp [encGetField, headIsEscape, escElem, encEscLoop, hd]
  · intro n tt htt
    simp only [fixNode]
    rw [if_pos htt]

/-- C7 witness: the three conjuncts applied at `TX`, the sample delimiter
set, and the non-escapable datatype `ST`. -/
theorem fixNode_escape_chain_spec_witness :
    fixNode (.elem ("OBX.2".toList) none (some ("abc\\H\\bold\\N\\after".toList)) none [])
        ("TX".toList) =
      .elem ("OBX.2".toList) none (some ("abc".toList)) none
        [escElem ("H".toList) ("bold".toList), escElem ("N".toList) ("after".toList)] ∧
    encGetField sampleDelims (.elem ("OBX.5".toList) none (some ("abc".toList)) none
        [escElem ("H".toList) ("bold".toList), escElem ("N".toList) ("after".toList)]) =
      .ok ("abc\\H\\bold\\N\\after".toList) ∧
    fixNode (.elem ("PID.3".toList) none (some ("x\\H\\y".toList)) none []) ("ST".toList) =
      .elem ("PID.3".toList) none (some ("x\\H\\y".toList)) none [] :=
  ⟨fixNode_escape_chain_spec.1 _ _ _ _ (Or.inl rfl),
   fixNode_escape_chain_spec.2.1 sampleDelims rfl,
   fixNode_escape_chain_spec.2.2 _ _ (by decide)⟩

/-!
## Numeric character references back to markers (`xml2bar.py` getDocument)
-/

/-- Match of `&#x(([0-9A-Fa-f][0-9A-Fa-f])+);` (`hl7charRef` of
`xml2bar.py` line 80) anchored at the start of `s`: the hex characters and
the remainder after the semicolon. -/
def matchCRefAt (s : Str) : Option (Str × Str) :=
  match s with
  | '&' :: '#' :: 'x' :: rest =>
    let run := rest.takeWhile isHexDigit
    if run.length ≥ 2 ∧ run.length % 2 = 0 ∧ (rest.drop run.length).head? = some ';' then
      some (run, rest.drop (run.length + 1))
    else none
  | _ => none

/-- `hl7charRef.sub(r'\\X\1\\', text)` (`xml2bar.py` line 101): every
numeric character-reference run is rewritten to a literal `\X…\` marker,
scanning left to right without revisiting replaced text. -/
def collapseCRefs : Nat → Str → Str
  | _, [] => []
  | 0, s => s
  | fuel + 1, c :: rest =>
    match matchCRefAt (c :: rest) with
    | some (hex, post) => '\\' :: 'X' :: (hex ++ '\\' :: collapseCRefs fuel post)
    | none => c :: collapseCRefs fuel rest

theorem isHexDigit_ne_backslash {c : Char} (h : isHexDigit c = true) : c ≠ '\\' := by
  intro hq
  subst hq
  exact absurd h (by decide)

theorem findRef_none_of_no_backslash (marker : Char) (s : Str) (h : '\\' ∉ s) :
    findRef marker s = none := by
  induction s with
  | nil => rfl
  | cons c rest ih =>
    have hc : ¬c = '\\' := fun hq => h (hq ▸ List.mem_cons_self c rest)
    have hrest : '\\' ∉ rest := fun hq => h (List.mem_cons_of_mem c hq)
    have hm : matchRefAt marker (c :: rest) = none := by
      match rest with
      | [] => rfl
      | m :: r2 =>
        simp only [matchRefAt]
        rw [if_neg]
        intro hq
        exact hc hq.1
    simp only [findRef, hm, ih hrest]

theorem replaceRefs_of_none (marker : Char) (s : Str) (h : findRef marker s = none) :
    ∀ fuel : Nat, replaceRefs marker fuel s = s := by
  intro fuel
  cases fuel with
  | zero => rfl
  | succ fuel => rw [replaceRefs, h]

theorem backslash_not_mem_hexref {c1 c2 : Char} (h1 : isHexDigit c1 = true)
    (h2 : isHexDigit c2 = true) : '\\' ∉ (['&', '#', 'x', c1, c2, ';'] : Str) := by
  intro hmem
  have hforall : ∀ x ∈ (['&', '#', 'x', c1, c2, ';'] : Str), x ≠ '\\' := by
    intro x hx
    simp only [List.mem_cons, List.not_mem_nil, or_false] at hx
    rcases hx with rfl | rfl | rfl | rfl | rfl | rfl
    · decide
    · decide
    · decide
    · exact isHexDigit_ne_backslash h1
    · exact isHexDigit_ne_backslash h2
    · decide
  exact hforall '\\' hmem rfl

theorem findRef_marker_pair (m c1 c2 : Char) (h1 : isHexDigit c1 = true)
    (h2 : isHexDigit c2 = true) :
    findRef m ['\\', m, c1, c2, '\\'] = some ([], [c1, c2], []) := by
  have hb : isHexDigit '\\' = false := rfl
  simp [findRef, matchRefAt, List.takeWhile_cons, h1, h2, hb]

theorem collapseCRefs_single (c1 c2 : Char) (h1 : isHexDigit c1 = true)
    (h2 : isHexDigit c2 = true) (fuel : Nat) :
    collapseCRefs (fuel + 1) ['&', '#', 'x', c1, c2, ';'] = ['\\', 'X', c1, c2, '\\'] := by
  have hsemi : isHexDigit ';' = false := rfl
  have hm : matchCRefAt ['&', '#', 'x', c1, c2, ';'] = some ([c1, c2], []) := by
    simp [matchCRefAt, List.takeWhile_cons, h1, h2, hsemi]
  rw [collapseCRefs, hm]
  simp [collapseCRefs]

theorem replaceRefs_marker_pair (m c1 c2 : Char) (h1 : isHexDigit c1 = true)
    (h2 : isHexDigit c2 = true) (fuel : Nat) :
    replaceRefs m (fuel + 1) ['\\', m, c1, c2, '\\'] = ['&', '#', 'x', c1, c2, ';'] := by
  have hnone : findRef m ['&', '#', 'x', c1, c2, ';'] = none :=
    findRef_none_of_no_backslash m _ (backslash_not_mem_hexref h1 h2)
  rw [replaceRefs, findRef_marker_pair m c1 c2 h1 h2]
  show replaceRefs m fuel ([] ++ hexRefs [c1, c2] ++ []) = ['&', '#', 'x', c1, c2, ';']
  rw [show (([] : Str) ++ hexRefs [c1, c2] ++ ([] : Str)) = ['&', '#', 'x', c1, c2, ';']
    from by simp [hexRefs]]
  exact replaceRefs_of_none m _ hnone fuel

/-- C8 (amended): hex character-reference markers decode into one numeric
character reference per hex pair, for both marker variants; the inverse
substitution of `getDocument` collapses each single numeric reference into
a single-pair `\X…\` marker.  Hence the round trip is byte-exact only for
single-pair `X`-variant markers: a `Z`-variant marker comes back in
`X` form, and a multi-pair marker comes back as a sequence of single-pair
`X` markers. -/
theorem hexRef_marker_codec_spec :
    (∀ (c1 c2 : Char), isHexDigit c1 = true → isHexDigit c2 = true → ∀ fuel : Nat,
      replaceRefs 'X' (fuel + 1) ['\\', 'X', c1, c2, '\\'] = ['&', '#', 'x', c1, c2, ';']
      ∧ replaceRefs 'Z' (fuel + 1) ['\\', 'Z', c1, c2, '\\'] = ['&', '#', 'x', c1, c2, ';']
      ∧ collapseCRefs (fuel + 1) ['&', '#', 'x', c1, c2, ';'] = ['\\', 'X', c1, c2, '\\'])
    ∧ (∀ (c1 c2 c3 c4 : Char), isHexDigit c1 = true → isHexDigit c2 = true →
      isHexDigit c3 = true → isHexDigit c4 = true → ∀ fuel : Nat,
      replaceRefs 'X' (fuel + 1) ['\\', 'X', c1, c2, c3, c4, '\\'] =
        ['&', '#', 'x', c1, c2, ';', '&', '#', 'x', c3, c4, ';']
      ∧ collapseCRefs (fuel + 2) ['&', '#', 'x', c1, c2, ';', '&', '#', 'x', c3, c4, ';'] =
        ['\\', 'X', c1, c2, '\\', '\\', 'X', c3, c4, '\\']) := by
  constructor
  · intro c1 c2 h1 h2 fuel
    exact ⟨replaceRefs_marker_pair 'X' c1 c2 h1 h2 fuel,
      replaceRefs_marker_pair 'Z' c1 c2 h1 h2 fuel,
      collapseCRefs_single c1 c2 h1 h2 fuel⟩
  · intro c1 c2 c3 c4 h1 h2 h3 h4 fuel
    constructor
    · have hb : isHexDigit '\\' = false := rfl
      have hfind : findRef 'X' ['\\', 'X', c1, c2, c3, c4, '\\'] =
          some ([], [c1, c2, c3, c4], []) := by
        simp [findRef, matchRefAt, List.takeWhile_cons, h1, h2, h3, h4, hb]
      have hnone : findRef 'X' ['&', '#', 'x', c1, c2, ';', '&', '#', 'x', c3, c4, ';'] =
          none := by
        apply findRef_none_of_no_backslash
        have hsplit2 : (['&', '#', 'x', c1, c2, ';', '&', '#', 'x', c3, c4, ';'] : Str) =
            ['&', '#', 'x', c1, c2, ';'] ++ ['&', '#', 'x', c3, c4, ';'] := rfl
        rw [hsplit2]
        intro hmem
        rcases List.mem_append.1 hmem with h | h
        · exact backslash_not_mem_hexref h1 h2 h
        · exact backslash_not_mem_hexref h3 h4 h
      rw [replaceRefs, hfind]
      show replaceRefs 'X' fuel ([] ++ hexRefs [c1, c2, c3, c4] ++ []) = _
      rw [show (([] : Str) ++ hexRefs [c1, c2, c3, c4] ++ ([] : Str)) =
          ['&', '#', 'x', c1, c2, ';', '&', '#', 'x', c3, c4, ';']
        from by simp [hexRefs]]
      exact replaceRefs_of_none 'X' _ hnone fuel
    · have hsemi : isHexDigit ';' = false := rfl
      have hamp : isHexDigit '&' = false := rfl
      have hm : matchCRefAt ['&', '#', 'x', c1, c2, ';', '&', '#', 'x', c3, c4, ';'] =
          some ([c1, c2], ['&', '#', 'x', c3, c4, ';']) := by
        simp [matchCRefAt, List.takeWhile_cons, h1, h2, hsemi]
      rw [collapseCRefs, hm]
      show '\\' :: 'X' :: ([c1, c2] ++ '\\' ::
          collapseCRefs (fuel + 1) ['&', '#', 'x', c3, c4, ';']) = _
      rw [collapseCRefs_single c3 c4 h3 h4 fuel]
      rfl

/-- C8 witness: both conjuncts at the concrete hex pairs `41` and `42`
with one unit of spare fuel. -/
theorem hexRef_marker_codec_spec_witness :
    (isHexDigit '4' = true) ∧
    (replaceRefs 'X' 1 ("\\X41\\".toList) = "&#x41;".toList
      ∧ replaceRefs 'Z' 1 ("\\Z41\\".toList) = "&#x41;".toList
      ∧ collapseCRefs 1 ("&#x41;".toList) = "\\X41\\".toList) ∧
    (replaceRefs 'X' 1 ("\\X4142\\".toList) = "&#x41;&#x42;".toList
      ∧ collapseCRefs 2 ("&#x41;&#x42;".toList) = "\\X41\\\\X42\\".toList) :=
  ⟨by decide, hexRef_marker_codec_spec.1 '4' '1' (by decide) (by decide) 0,
    hexRef_marker_codec_spec.2 '4' '1' '4' '2' (by decide) (by decide) (by decide)
      (by decide) 0⟩

/-- C8 counterexample: the claim's round trip fails for the `Z` variant
and for multi-pair markers.  A `TX` leaf holding `\Z41\` decodes (through
`fixElement`) to the numeric reference `&#x41;`, which the inverse
transform of `getDocument` rewrites to `\X41\`, not `\Z41\`; and `\X4142\`
decodes to two numeric references, which come back as `\X41\\X42\`, not
`\X4142\`. -/
theorem hexRef_roundtrip_counterexample :
    fixNode (.elem ("OBX.2".toList) none (some ("\\Z41\\".toList)) none []) ("TX".toList) =
      .elem ("OBX.2".toList) none (some ("&#x41;".toList)) none []
    ∧ collapseCRefs (("&#x41;".toList : Str).length + 1) ("&#x41;".toList) = "\\X41\\".toList
    ∧ ("\\X41\\".toList : Str) ≠ "\\Z41\\".toList
    ∧ fixNode (.elem ("OBX.2".toList) none (some ("\\X4142\\".toList)) none []) ("TX".toList) =
      .elem ("OBX.2".toList) none (some ("&#x41;&#x42;".toList)) none []
    ∧ collapseCRefs (("&#x41;&#x42;".toList : Str).length + 1) ("&#x41;&#x42;".toList) =
      "\\X41\\\\X42\\".toList
    ∧ ("\\X41\\\\X42\\".toList : Str) ≠ "\\X4142\\".toList :=
  ⟨rfl, rfl, by decide, rfl, rfl, by decide⟩

/-- C10: the claimed error discipline fails below field level.  Evaluating
the encoder at well-formed inputs: a component carrying a perfectly valid
`<escape V="H"/>` child crashes with `AttributeError` (line 189 of
`xml2bar.py` reads `.tag` off the string accumulated so far instead of off
the escape child), also when reached through `getField`'s component walk;
a well-formed subcomponent escape exits with `EX_DATAERR` although none of
the claimed error conditions holds (lines 215-228 test `subComp` — whose
tag is the subcomponent name — instead of `subCompEsc`); and a field
mixing a component child with a trailing `<escape>` child raises
`ValueError` (from `int('escape')`) instead of the claimed
DataFormatError. -/
theorem encoder_escape_level_bugs :
    encGetComponent sampleDelims (.elem ("XPN.1".toList) none (some ("txt".toList)) none
        [escElem ("H".toList) ("tail".toList)]) = .error .attributeError
    ∧ encGetField sampleDelims (.elem ("PID.5".toList) none none none
        [.elem ("XPN.1".toList) none (some ("txt".toList)) none
          [escElem ("H".toList) ("tail".toList)]]) = .error .attributeError
    ∧ encGetComponent sampleDelims (.elem ("CX.4".toList) none none none
        [.elem ("HD.1".toList) none (some ("t".toList)) none
          [escElem ("H".toList) ("u".toList)]]) = .error .dataError
    ∧ encGetField sampleDelims (.elem ("OBX.5".toList) none (some ("a".toList)) none
        [.elem ("CE.1".toList) none (some ("b".toList)) none [],
         escElem ("H".toList) ("c".toList)]) = .error .valueError :=
  ⟨rfl, rfl, rfl, rfl⟩


/-!
## Soundness of the escape scanner, toward the round-trip theorem
-/

theorem drop_takeWhile_length (p : Char → Bool) (l : Str) :
    l.drop (l.takeWhile p).length = l.dropWhile p := by
  induction l with
  | nil => rfl
  | cons a l ih =>
    by_cases hp : p a
    · simp [List.takeWhile_cons, List.dropWhile_cons, hp, ih]
    · simp [List.takeWhile_cons, List.dropWhile_cons, hp]

theorem takeWhile_decomp (p : Char → Bool) (l : Str) :
    l = l.takeWhile p ++ l.drop (l.takeWhile p).length := by
  rw [drop_takeWhile_length]
  exact (List.takeWhile_append_dropWhile p l).symm

theorem signSplit_sound (a : Bool) (r : Str) :
    r = (signSplit a r).1 ++ (signSplit a r).2 := by
  unfold signSplit
  cases a with
  | false => rfl
  | true =>
    match r with
    | [] => rfl
    | c :: r2 =>
      by_cases h : c = '-' ∨ c = '+'
      · simp [h]
      · simp [h]

theorem drop_head_decomp {l : Str} {n : Nat} {c : Char} (h : (l.drop n).head? = some c) :
    l.drop n = c :: l.drop (n + 1) := by
  cases hd : l.drop n with
  | nil => rw [hd] at h; simp at h
  | cons a t =>
    rw [hd] at h
    simp only [List.head?_cons, Option.some.injEq] at h
    subst h
    have ht : t = (l.drop n).tail := by rw [hd]; rfl
    rw [ht, List.tail_drop]

theorem numTailAfterSign_sound {ws body post : Str} {sr : Str × Str}
    (h : numTailAfterSign ws sr = some (body, post)) :
    body = ws ++ sr.1 ++ sr.2.takeWhile isDigitCh ∧
    sr.2 = sr.2.takeWhile isDigitCh ++ '\\' :: post := by
  unfold numTailAfterSign at h
  by_cases hcond : (sr.2.takeWhile isDigitCh).length ≥ 1 ∧
      (sr.2.drop (sr.2.takeWhile isDigitCh).length).head? = some '\\'
  · rw [if_pos hcond] at h
    simp only [Option.some.injEq, Prod.mk.injEq] at h
    obtain ⟨hb, hp⟩ := h
    refine ⟨hb.symm, ?_⟩
    conv_lhs => rw [takeWhile_decomp isDigitCh sr.2]
    rw [drop_head_decomp hcond.2, hp]
  · rw [if_neg hcond] at h
    exact absurd h (by simp)

theorem matchNumTail_sound {allowSign : Bool} {rest body post : Str}
    (h : matchNumTail allowSign rest = some (body, post)) :
    rest = body ++ '\\' :: post := by
  unfold matchNumTail at h
  obtain ⟨hb, h2⟩ := numTailAfterSign_sound h
  calc rest
      = rest.takeWhile pyIsSpace ++ rest.drop (rest.takeWhile pyIsSpace).length :=
        takeWhile_decomp pyIsSpace rest
    _ = rest.takeWhile pyIsSpace ++
        ((signSplit allowSign (rest.drop (rest.takeWhile pyIsSpace).length)).1 ++
         (signSplit allowSign (rest.drop (rest.takeWhile pyIsSpace).length)).2) := by
        rw [← signSplit_sound]
    _ = body ++ '\\' :: post := by
        rw [h2, hb]
        simp [List.append_assoc]

set_option maxHeartbeats 2000000 in
theorem matchEscAt_sound {s grp post : Str} (h : matchEscAt s = some (grp, post)) :
    s = '\\' :: grp ++ '\\' :: post := by
  unfold matchEscAt at h
  split at h
  · simp only [Option.some.injEq, Prod.mk.injEq] at h
    obtain ⟨h1, h2⟩ := h
    subst h1; subst h2
    rfl
  · simp only [Option.some.injEq, Prod.mk.injEq] at h
    obtain ⟨h1, h2⟩ := h
    subst h1; subst h2
    rfl
  · simp only [Option.some.injEq, Prod.mk.injEq] at h
    obtain ⟨h1, h2⟩ := h
    subst h1; subst h2
    rfl
  · rename_i rest
    obtain ⟨⟨p1, p2⟩, hmt, heq⟩ := Option.map_eq_some'.1 h
    simp only [Prod.mk.injEq] at heq
    obtain ⟨h1, h2⟩ := heq
    subst h1; subst h2
    rw [matchNumTail_sound hmt]
    rfl
  · rename_i rest
    obtain ⟨⟨p1, p2⟩, hmt, heq⟩ := Option.map_eq_some'.1 h
    simp only [Prod.mk.injEq] at heq
    obtain ⟨h1, h2⟩ := heq
    subst h1; subst h2
    rw [matchNumTail_sound hmt]
    rfl
  · rename_i rest
    obtain ⟨⟨p1, p2⟩, hmt, heq⟩ := Option.map_eq_some'.1 h
    simp only [Prod.mk.injEq] at heq
    obtain ⟨h1, h2⟩ := heq
    subst h1; subst h2
    rw [matchNumTail_sound hmt]
    rfl
  · exact absurd h (by simp)

theorem findEsc_sound : ∀ {t pre grp post : Str},
    findEsc t = some (pre, grp, post) → t = pre ++ '\\' :: grp ++ '\\' :: post := by
  intro t
  induction t with
  | nil => intro pre grp post h; simp [findEsc] at h
  | cons c rest ih =>
    intro pre grp post h
    unfold findEsc at h
    cases hm : matchEscAt (c :: rest) with
    | some gp =>
      obtain ⟨g2, p2⟩ := gp
      rw [hm] at h
      simp only [Option.some.injEq, Prod.mk.injEq] at h
      obtain ⟨h1, h2, h3⟩ := h
      subst h1; subst h2; subst h3
      simpa using matchEscAt_sound hm
    | none =>
      rw [hm] at h
      cases hf : findEsc rest with
      | none => rw [hf] at h; simp at h
      | some trip =>
        obtain ⟨pr, g2, p2⟩ := trip
        rw [hf] at h
        simp only [Option.some.injEq, Prod.mk.injEq] at h
        obtain ⟨h1, h2, h3⟩ := h
        subst h1; subst h2; subst h3
        have := ih hf
        rw [this]
        rfl

theorem encEscLoop_escElem_cons (d : Delims) (hesc : d.escSep = some '\\') (grp tl : Str)
    (rest : List Node) :
    encEscLoop d (escElem grp tl :: rest) =
      match encEscLoop d rest with
      | .error e => .error e
      | .ok s2 => .ok ('\\' :: (grp ++ '\\' :: tl) ++ s2) := by
  simp [encEscLoop, escElem, hesc]

theorem headIsEscape_escChain (fuel : Nat) (grp tl : Str) :
    headIsEscape (escChain fuel grp tl) = true := by
  cases fuel with
  | zero => rfl
  | succ fuel =>
    rw [escChain]
    cases hf : findEsc tl with
    | none => rfl
    | some trip =>
      obtain ⟨pre, g2, p2⟩ := trip
      rfl

theorem escChain_ne_nil (fuel : Nat) (grp tl : Str) : escChain fuel grp tl ≠ [] := by
  cases fuel with
  | zero => simp [escChain]
  | succ fuel =>
    rw [escChain]
    cases hf : findEsc tl with
    | none => simp
    | some trip =>
      obtain ⟨pre, g2, p2⟩ := trip
      simp

theorem encEscLoop_escChain (d : Delims) (hesc : d.escSep = some '\\') :
    ∀ (fuel : Nat) (grp tl : Str), tl.length ≤ fuel →
      encEscLoop d (escChain fuel grp tl) = .ok ('\\' :: grp ++ '\\' :: tl) := by
  intro fuel
  induction fuel with
  | zero =>
    intro grp tl hl
    have htl : tl = [] := List.eq_nil_of_length_eq_zero (Nat.le_zero.1 hl)
    subst htl
    rw [show escChain 0 grp [] = [escElem grp []] from rfl,
      encEscLoop_escElem_cons d hesc grp [] []]
    simp [encEscLoop]
  | succ fuel ih =>
    intro grp tl hl
    rw [escChain]
    cases hf : findEsc tl with
    | none =>
      rw [encEscLoop_escElem_cons d hesc grp tl []]
      simp [encEscLoop]
    | some trip =>
      obtain ⟨pre, g2, p2⟩ := trip
      have hsound := findEsc_sound hf
      have hlen : p2.length ≤ fuel := by
        have hlen2 := congrArg List.length hsound
        simp only [List.length_append, List.length_cons] at hlen2
        omega
      rw [encEscLoop_escElem_cons d hesc grp pre, ih g2 p2 hlen]
      rw [hsound]
      simp [List.append_assoc]

theorem fixNode_of_not_escapable (n : Node) (tt : Str)
    (htt : ¬(tt = "TX".toList ∨ tt = "FT".toList ∨ tt = "CF".toList)) :
    fixNode n tt = n := by
  simp only [fixNode]
  rw [if_pos htt]

theorem fixNode_esc (tag : Str) (aV tail : Option Str) (ch : List Node) (t tt : Str)
    (htt : tt = "TX".toList ∨ tt = "FT".toList ∨ tt = "CF".toList)
    (hx : findRef 'X' t = none) (hz : findRef 'Z' t = none) :
    fixNode (.elem tag aV (some t) tail ch) tt =
      (match findEsc t with
       | none => .elem tag aV (some t) tail ch
       | some (pre, grp, post) =>
         .elem tag aV (some pre) tail (ch ++ escChain (post.length + 1) grp post)) := by
  unfold fixNode
  rw [if_neg (not_not_intro htt)]
  dsimp only
  simp only [Option.getD_some]
  rw [replaceRefs_of_none 'X' t hx]
  rw [replaceRefs_of_none 'Z' t hz]

theorem encGetField_fixNode (d : Delims) (tag : Str) (aV : Option Str) (t tt : Str)
    (hx : findRef 'X' t = none) (hz : findRef 'Z' t = none)
    (hesc : findEsc t = none ∨ d.escSep = some '\\') :
    encGetField d (fixNode (.elem tag aV (some t) none []) tt) = .ok t := by
  by_cases htt : tt = "TX".toList ∨ tt = "FT".toList ∨ tt = "CF".toList
  · rw [fixNode_esc tag aV none [] t tt htt hx hz]
    cases hf : findEsc t with
    | none => simp [encGetField]
    | some trip =>
      obtain ⟨pre, grp, post⟩ := trip
      rcases hesc with he | he
      · rw [hf] at he
        exact absurd he (by simp)
      · have hne := escChain_ne_nil (post.length + 1) grp post
        have hhd := headIsEscape_escChain (post.length + 1) grp post
        simp only [List.nil_append]
        unfold encGetField
        dsimp only
        rw [if_pos (Or.inr hhd)]
        rw [if_neg (by simpa [List.isEmpty_iff] using hne)]
        rw [encEscLoop_escChain d he (post.length + 1) grp post (Nat.le_succ _)]
        rw [findEsc_sound hf]
        simp [List.append_assoc]
  · rw [fixNode_of_not_escapable _ _ htt]
    simp [encGetField]

theorem encGetComponent_fixNode (d : Delims) (tag : Str) (aV : Option Str) (t tt : Str)
    (hx : findRef 'X' t = none) (hz : findRef 'Z' t = none) (he : findEsc t = none) :
    encGetComponent d (fixNode (.elem tag aV (some t) none []) tt) = .ok t := by
  by_cases htt : tt = "TX".toList ∨ tt = "FT".toList ∨ tt = "CF".toList
  · rw [fixNode_esc tag aV none [] t tt htt hx hz, he]
    simp [encGetComponent]
  · rw [fixNode_of_not_escapable _ _ htt]
    simp [encGetComponent]

/-!
## Canonical-form predicates for the round trip

`canonSegment` classifies a raw segment string by the exact splitting
structure `createXML` gives it: no trailing empty fields, components or
subcomponents (the decoder drops them, so they cannot be re-encoded), no
slot counts beyond the declared layouts, resolvable datatypes, and
rich-text leaves free of character-reference markers — with, below field
level, no escape codes at all (the encoder cannot reproduce them there,
see the C10 analysis), and at field level an established backslash escape
separator whenever an escape code occurs.
-/

mutual

def noCommentsN : Node → Bool
  | .comment _ => false
  | .elem _ _ _ _ ch => noCommentsL ch

def noCommentsL : List Node → Bool
  | [] => true
  | n :: rest => noCommentsN n && noCommentsL rest

end

def escapableB (tt : Str) : Bool :=
  decide (tt = "TX".toList) || decide (tt = "FT".toList) || decide (tt = "CF".toList)

def escFreeB (t : Str) : Bool :=
  (findRef 'X' t).isNone && (findRef 'Z' t).isNone && (findEsc t).isNone

def escOkFieldB (d : Delims) (t : Str) : Bool :=
  (findRef 'X' t).isNone && (findRef 'Z' t).isNone &&
    ((findEsc t).isNone || decide (d.escSep = some '\\'))

def canonSub (sch : Schema) (subrefs : List Str) : Nat → List Str → Bool
  | _, [] => true
  | k, sub :: rest =>
    (sub.isEmpty ||
      (decide (k < subrefs.length) &&
        match sch.dtTypes.lookup (subrefs.getD k []) with
        | none => false
        | some st => !escapableB st || escFreeB sub)) &&
    canonSub sch subrefs (k + 1) rest

def canonComps (sch : Schema) (d : Delims) (comps : List Str) : Nat → List Str → Bool
  | _, [] => true
  | j, comp :: rest =>
    (comp.isEmpty ||
      (decide (j < comps.length) &&
        match sch.dtTypes.lookup (comps.getD j []) with
        | none => false
        | some ctype =>
          match sch.dtComps.lookup ctype, d.subCompSep with
          | some subrefs, some scs =>
            decide ((pySplit scs comp).getLast? ≠ some []) &&
            canonSub sch subrefs 0 (pySplit scs comp)
          | _, _ => !escapableB ctype || escFreeB comp)) &&
    canonComps sch d comps (j + 1) rest

def canonRep (sch : Schema) (d : Delims) (seg : Str) (xs : List (Option Str))
    (Fields : List Str) (i : Nat) (rep : Str) : Bool :=
  match xs.get? i with
  | some (some fieldRef) =>
    match resolveFieldType sch seg fieldRef Fields with
    | .error _ => false
    | .ok ftype =>
      match (if ftype = "FT".toList then none else sch.dtComps.lookup ftype) with
      | some comps =>
        decide ((pySplit d.compSep rep).getLast? ≠ some []) &&
        canonComps sch d comps 0 (pySplit d.compSep rep)
      | none => escOkFieldB d rep
  | _ => true

def canonFields (sch : Schema) (d : Delims) (seg : Str) (xs : List (Option Str))
    (Fields : List Str) : Nat → List Str → Bool
  | _, [] => true
  | i, field :: rest =>
    (field.isEmpty ||
      (if seg ≠ "MSH".toList ∧ i ≠ 1 then pySplit d.repSep field else [field]).all
        (canonRep sch d seg xs Fields i)) &&
    canonFields sch d seg xs Fields (i + 1) rest

def canonSegment (ctx : Ctx) (s : Str) : Bool :=
  decide ((s.take 3).length = 3) &&
  (match pySplit ctx.d.fieldSep s with
   | [] => false
   | f0 :: rest0 =>
     decide (f0 = s.take 3) &&
     (match (if f0 = "MSH".toList then f0 :: [ctx.d.fieldSep] :: rest0 else f0 :: rest0) with
      | [] => false
      | seg :: Fields =>
        match ctx.schema.segFields.lookup seg with
        | none => false
        | some xs =>
          decide (Fields.getLast? ≠ some ([] : Str)) &&
          canonFields ctx.schema ctx.d seg xs Fields 0 Fields))

/-- Well-formedness of the grammar model's naming, as the real HL7 v2.xml
schemas satisfy it: segment codes are three characters and field refs are
`SEG.n` by position; datatype component refs carry the component number
after their first dot. -/
def schemaWF (sch : Schema) : Prop :=
  (∀ p ∈ sch.segFields, (p.1 : Str).length = 3 ∧
    ∀ i : Nat, i < p.2.length →
      p.2.getD i none = none ∨ p.2.getD i none = some (p.1 ++ '.' :: natDigits (i + 1)))
  ∧ (∀ q ∈ sch.dtComps, ∀ k : Nat, k < q.2.length →
      afterDot (q.2.getD k []) = natDigits (k + 1))

instance (sch : Schema) : Decidable (schemaWF sch) := by
  unfold schemaWF
  infer_instance

theorem lookup_mem {α β : Type} [BEq α] [LawfulBEq α] {l : List (α × β)} {a : α} {b : β}
    (h : l.lookup a = some b) : (a, b) ∈ l := by
  induction l with
  | nil => simp [List.lookup] at h
  | cons p rest ih =>
    obtain ⟨a2, b2⟩ := p
    by_cases hq : a == a2
    · simp only [List.lookup, hq] at h
      have ha : a = a2 := eq_of_beq hq
      injection h with h2
      subst ha; subst h2
      exact List.mem_cons_self _ _
    · rw [Bool.not_eq_true] at hq
      simp only [List.lookup, hq] at h
      exact List.mem_cons_of_mem _ (ih h)

/-- Pads then the joined pieces — the text still to be emitted by an
encoder walk that has last emitted position `L` inside a split list. -/
def padJoin (sep : Char) (numPads : Nat) (pieces : List Str) : Str :=
  match pieces with
  | [] => []
  | _ => List.replicate numPads sep ++ pyJoin sep pieces

theorem pyJoin_cons_of_ne (sep : Char) (w : Str) {ws : List Str} (h : ws ≠ []) :
    pyJoin sep (w :: ws) = w ++ sep :: pyJoin sep ws := by
  cases ws with
  | nil => exact absurd rfl h
  | cons w2 ws2 => rfl

theorem replicate_append_cons (n : Nat) (c : Char) (l : Str) :
    List.replicate n c ++ c :: l = List.replicate (n + 1) c ++ l := by
  rw [List.replicate_succ']
  simp

theorem escFreeB_spec {t : Str} (h : escFreeB t = true) :
    findRef 'X' t = none ∧ findRef 'Z' t = none ∧ findEsc t = none := by
  simp only [escFreeB, Bool.and_eq_true, Option.isNone_iff_eq_none] at h
  exact ⟨h.1.1, h.1.2, h.2⟩

theorem escOkFieldB_spec {d : Delims} {t : Str} (h : escOkFieldB d t = true) :
    findRef 'X' t = none ∧ findRef 'Z' t = none ∧
      (findEsc t = none ∨ d.escSep = some '\\') := by
  simp only [escOkFieldB, Bool.and_eq_true, Bool.or_eq_true, Option.isNone_iff_eq_none,
    decide_eq_true_eq] at h
  exact ⟨h.1.1, h.1.2, h.2⟩

theorem escapableB_false {tt : Str} (h : escapableB tt = false) :
    ¬(tt = "TX".toList ∨ tt = "FT".toList ∨ tt = "CF".toList) := by
  simp only [escapableB, Bool.or_eq_false_iff, decide_eq_false_iff_not] at h
  rintro (h1 | h1 | h1)
  · exact h.1.1 h1
  · exact h.1.2 h1
  · exact h.2 h1

theorem fixNode_id_of_canon (tag : Str) (aV tail : Option Str) (ch : List Node)
    (t tt : Str) (h : escapableB tt = false ∨ escFreeB t = true) :
    fixNode (.elem tag aV (some t) tail ch) tt = .elem tag aV (some t) tail ch := by
  rcases h with h | h
  · exact fixNode_of_not_escapable _ _ (escapableB_false h)
  · obtain ⟨hx, hz, he⟩ := escFreeB_spec h
    by_cases htt : tt = "TX".toList ∨ tt = "FT".toList ∨ tt = "CF".toList
    · rw [fixNode_esc tag aV tail ch t tt htt hx hz, he]
    · exact fixNode_of_not_escapable _ _ htt

theorem pyIdx_ok_iff {l : List α} {i : Nat} {v : α} :
    pyIdx l i = .ok v ↔ l.get? i = some v := by
  unfold pyIdx
  by_cases h : i < l.length
  · simp only [dif_pos h]
    constructor
    · intro hq
      injection hq with hq
      rw [List.get?_eq_getElem?, List.getElem?_eq_getElem h, hq]
    · intro hq
      rw [List.get?_eq_getElem?, List.getElem?_eq_getElem h] at hq
      injection hq with hq
      rw [hq]
  · simp only [dif_neg h]
    constructor
    · intro hq; exact absurd hq (by simp)
    · intro hq
      rw [List.get?_eq_getElem?] at hq
      have := List.getElem?_eq_none (le_of_not_lt h)
      rw [this] at hq
      exact absurd hq (by simp)

theorem getD_of_get? {l : List α} {i : Nat} {v d : α} (h : l.get? i = some v) :
    l.getD i d = v := by
  rw [List.getD_eq_getD_get?, h]
  rfl

theorem afterDot_ne_escape {r : Str} {m : Nat} (h : afterDot r = natDigits m) :
    r ≠ "escape".toList := by
  intro hq
  subst hq
  have h2 : afterDot ("escape".toList) = "escape".toList := rfl
  rw [h2] at h
  have h3 := pyNat_natDigits m
  rw [← h] at h3
  have h4 : pyNat ("escape".toList) = none := rfl
  rw [h4] at h3
  exact absurd h3 (by simp)

theorem padJoin_ne (sep : Char) (n : Nat) {pieces : List Str} (h : pieces ≠ []) :
    padJoin sep n pieces = List.replicate n sep ++ pyJoin sep pieces := by
  cases pieces with
  | nil => exact absurd rfl h
  | cons p ps => rfl

theorem buildSub_roundtrip (sch : Schema) (d : Delims) (scs : Char)
    (hscs : d.subCompSep = some scs) (subrefs : List Str)
    (hnaming : ∀ k : Nat, k < subrefs.length →
      afterDot (subrefs.getD k []) = natDigits (k + 1)) :
    ∀ (subs : List Str) (k L : Nat), 1 ≤ L → L ≤ k + 1 →
      canonSub sch subrefs k subs = true →
      subs.getLast? ≠ some ([] : Str) →
      ∃ nodes : List Node,
        buildSubComponents sch subrefs k subs = .ok nodes ∧
        encSubLoop d L nodes = .ok (padJoin scs (k + 1 - L) subs) ∧
        headIsEscape nodes = false ∧
        noCommentsL nodes = true ∧
        (nodes = [] → subs = []) := by
  intro subs
  induction subs with
  | nil =>
    intro k L hL1 hLk hc hlast
    exact ⟨[], rfl, rfl, rfl, rfl, fun _ => rfl⟩
  | cons s rest ih =>
    intro k L hL1 hLk hc hlast
    simp only [canonSub, Bool.and_eq_true] at hc
    obtain ⟨hc1, hcrest⟩ := hc
    by_cases hs : s = []
    · subst hs
      have hrest_ne : rest ≠ [] := by
        intro hq
        subst hq
        simp at hlast
      have hlast2 : rest.getLast? ≠ some ([] : Str) := by
        cases rest with
        | nil => exact absurd rfl hrest_ne
        | cons r rs =>
          rw [List.getLast?_cons_cons] at hlast
          exact hlast
      obtain ⟨nodes, hb, he, hh, hnc, hne⟩ :=
        ih (k + 1) L hL1 (by omega) hcrest hlast2
      refine ⟨nodes, ?_, ?_, hh, hnc, fun hq => absurd (hne hq) hrest_ne⟩
      · rw [buildSubComponents, if_pos rfl]
        exact hb
      · rw [he, padJoin_ne scs (k + 1 - L) (by simp : ([] : Str) :: rest ≠ []),
          padJoin_ne scs (k + 2 - L) hrest_ne]
        rw [pyJoin_cons_of_ne scs [] hrest_ne]
        rw [List.nil_append, replicate_append_cons]
        have harith : k + 1 - L + 1 = k + 2 - L := by omega
        rw [harith]
    · -- a non-empty subcomponent
      rw [Bool.or_eq_true] at hc1
      rcases hc1 with hemp | hguard
      · exact absurd (by simpa [List.isEmpty_iff] using hemp) hs
      rw [Bool.and_eq_true] at hguard
      obtain ⟨hklt, hguard2⟩ := hguard
      rw [decide_eq_true_eq] at hklt
      have hget : subrefs.get? k = some (subrefs.getD k []) := by
        rw [List.getD_eq_getD_get?]
        cases hq : subrefs.get? k with
        | none =>
          rw [List.get?_eq_getElem?, List.getElem?_eq_none_iff] at hq
          omega
        | some v => rfl
      cases hlook : sch.dtTypes.lookup (subrefs.getD k []) with
      | none => rw [hlook] at hguard2; exact absurd hguard2 (by simp)
      | some st =>
        rw [hlook] at hguard2
        have hfix : fixNode (.elem (subrefs.getD k []) none (some s) none []) st =
            .elem (subrefs.getD k []) none (some s) none [] := by
          apply fixNode_id_of_canon
          rw [Bool.or_eq_true] at hguard2
          rcases hguard2 with hg | hg
          · exact Or.inl (by simpa using hg)
          · exact Or.inr hg
        have hlast2 : rest.getLast? ≠ some ([] : Str) := by
          cases rest with
          | nil => simp
          | cons r rs =>
            rw [List.getLast?_cons_cons] at hlast
            exact hlast
        obtain ⟨nodes, hb, he, hh, hnc, hne⟩ :=
          ih (k + 1) (k + 1) (by omega) (by omega) hcrest hlast2
        have h1 : k + 1 + 1 - (k + 1) = 1 := by omega
        rw [h1] at he
        refine ⟨.elem (subrefs.getD k []) none (some s) none [] :: nodes, ?_, ?_, ?_, ?_, ?_⟩
        · have hlookE : lookupTypeE sch.dtTypes (subrefs.getD k []) = .ok st := by
            rw [lookupTypeE, hlook]
          rw [buildSubComponents, if_neg hs, pyIdx_ok_iff.2 hget]
          dsimp only
          rw [hlookE]
          dsimp only
          rw [hfix, hb]
        · rw [encSubLoop]
          dsimp only
          rw [hnaming k hklt, pyNat_natDigits]
          dsimp only
          have hmax : max L (k + 1) = k + 1 := by omega
          have hpad : (if k + 1 ≤ L then Except.ok ([] : Str)
              else match d.subCompSep with
                | none => Except.error PyErr.typeError
                | some sc => Except.ok (List.replicate (k + 1 - L) sc)) =
              Except.ok (List.replicate (k + 1 - L) scs) := by
            by_cases hle : k + 1 ≤ L
            · rw [if_pos hle]
              have h0 : k + 1 - L = 0 := by omega
              rw [h0, List.replicate_zero]
            · rw [if_neg hle, hscs]
          rw [hpad]
          dsimp only
          rw [hmax, he]
          dsimp only
          rw [padJoin_ne scs (k + 1 - L) (by simp : s :: rest ≠ [])]
          cases hrq : rest with
          | nil =>
            simp [padJoin, pyJoin]
          | cons r rs =>
            rw [padJoin_ne scs 1 (by simp : r :: rs ≠ [])]
            rw [pyJoin_cons_of_ne scs s (by simp : r :: rs ≠ [])]
            simp [List.append_assoc, List.replicate_one]
        · have hne2 := afterDot_ne_escape (hnaming k hklt)
          simp only [headIsEscape, decide_eq_false_iff_not]
          intro h
          exact hne2 (by simpa using h)
        · simpa [noCommentsL, noCommentsN] using hnc
        · intro hq; exact absurd hq (by simp)

theorem buildComps_roundtrip (sch : Schema) (d : Delims) (comps : List Str)
    (hwf : schemaWF sch)
    (hnaming : ∀ j : Nat, j < comps.length →
      afterDot (comps.getD j []) = natDigits (j + 1)) :
    ∀ (cs : List Str) (j L : Nat), 1 ≤ L → L ≤ j + 1 →
      canonComps sch d comps j cs = true →
      cs.getLast? ≠ some ([] : Str) →
      ∃ nodes : List Node,
        buildComponents sch d comps j cs = .ok nodes ∧
        encCompLoop d L nodes = .ok (padJoin d.compSep (j + 1 - L) cs) ∧
        headIsEscape nodes = false ∧
        noCommentsL nodes = true ∧
        (nodes = [] → cs = []) := by
  intro cs
  induction cs with
  | nil =>
    intro j L hL1 hLj hc hlast
    exact ⟨[], rfl, rfl, rfl, rfl, fun _ => rfl⟩
  | cons c rest ih =>
    intro j L hL1 hLj hc hlast
    simp only [canonComps, Bool.and_eq_true] at hc
    obtain ⟨hc1, hcrest⟩ := hc
    by_cases hcnil : c = []
    · subst hcnil
      have hrest_ne : rest ≠ [] := by
        intro hq
        subst hq
        simp at hlast
      have hlast2 : rest.getLast? ≠ some ([] : Str) := by
        cases rest with
        | nil => exact absurd rfl hrest_ne
        | cons r rs =>
          rw [List.getLast?_cons_cons] at hlast
          exact hlast
      obtain ⟨nodes, hb, he, hh, hnc, hne⟩ :=
        ih (j + 1) L hL1 (by omega) hcrest hlast2
      refine ⟨nodes, ?_, ?_, hh, hnc, fun hq => absurd (hne hq) hrest_ne⟩
      · rw [buildComponents, if_pos rfl]
        exact hb
      · rw [he, padJoin_ne d.compSep (j + 1 - L) (by simp : ([] : Str) :: rest ≠ []),
          padJoin_ne d.compSep (j + 2 - L) hrest_ne]
        rw [pyJoin_cons_of_ne d.compSep [] hrest_ne]
        rw [List.nil_append, replicate_append_cons]
        have harith : j + 1 - L + 1 = j + 2 - L := by omega
        rw [harith]
    · -- a non-empty component
      rw [Bool.or_eq_true] at hc1
      rcases hc1 with hemp | hguard
      · exact absurd (by simpa [List.isEmpty_iff] using hemp) hcnil
      rw [Bool.and_eq_true] at hguard
      obtain ⟨hjlt, hguard2⟩ := hguard
      rw [decide_eq_true_eq] at hjlt
      have hget : comps.get? j = some (comps.getD j []) := by
        rw [List.getD_eq_getD_get?]
        cases hq : comps.get? j with
        | none =>
          rw [List.get?_eq_getElem?, List.getElem?_eq_none_iff] at hq
          omega
        | some v => rfl
      cases hlook : sch.dtTypes.lookup (comps.getD j []) with
      | none => rw [hlook] at hguard2; exact absurd hguard2 (by simp)
      | some ctype =>
        rw [hlook] at hguard2
        dsimp only at hguard2
        have hlookE : lookupTypeE sch.dtTypes (comps.getD j []) = .ok ctype := by
          rw [lookupTypeE, hlook]
        have hlast2 : rest.getLast? ≠ some ([] : Str) := by
          cases rest with
          | nil => simp
          | cons r rs =>
            rw [List.getLast?_cons_cons] at hlast
            exact hlast
        obtain ⟨nodes, hb, he, hh, hnc, hne⟩ :=
          ih (j + 1) (j + 1) (by omega) (by omega) hcrest hlast2
        have h1 : j + 1 + 1 - (j + 1) = 1 := by omega
        rw [h1] at he
        -- build the node for this component, by the two decode shapes
        have hnode : ∃ nd : Node,
            (match sch.dtComps.lookup ctype, d.subCompSep with
              | some subrefs, some scs =>
                match buildSubComponents sch subrefs 0 (pySplit scs c) with
                | .error e => .error e
                | .ok subs => .ok (.elem (comps.getD j []) none none none subs)
              | _, _ =>
                .ok (fixNode (.elem (comps.getD j []) none (some c) none []) ctype) :
              Except PyErr Node) = .ok nd ∧
            encGetComponent d nd = .ok c ∧
            (∃ aV2 t2 tl2 ch2, nd = Node.elem (comps.getD j []) aV2 t2 tl2 ch2) ∧
            noCommentsN nd = true := by
          cases hbits : sch.dtComps.lookup ctype with
          | some subrefs =>
            cases hsub : d.subCompSep with
            | some scs =>
              rw [hbits, hsub] at hguard2
              dsimp only at hguard2
              rw [Bool.and_eq_true] at hguard2
              obtain ⟨hsublast, hsubcanon⟩ := hguard2
              rw [decide_eq_true_eq] at hsublast
              have hsubnaming : ∀ k : Nat, k < subrefs.length →
                  afterDot (subrefs.getD k []) = natDigits (k + 1) := by
                intro k hk
                have hmem := lookup_mem hbits
                exact hwf.2 (ctype, subrefs) hmem k hk
              obtain ⟨subNodes, hsb, hse, hsh, hsnc, hsne⟩ :=
                buildSub_roundtrip sch d scs hsub subrefs hsubnaming
                  (pySplit scs c) 0 1 (le_refl 1) (by omega) hsubcanon hsublast
              have hsubs_ne : pySplit scs c ≠ [] := pySplit_ne_nil scs c
              have hsubNodes_ne : subNodes ≠ [] := by
                intro hq
                exact hsubs_ne (hsne hq)
              refine ⟨.elem (comps.getD j []) none none none subNodes, ?_, ?_, ?_, ?_⟩
              · dsimp only
                rw [hsb]
              · unfold encGetComponent
                dsimp only
                rw [if_neg]
                · rw [hse]
                  have h0 : 0 + 1 - 1 = 0 := rfl
                  rw [h0, padJoin_ne scs 0 hsubs_ne]
                  rw [List.replicate_zero, List.nil_append, pyJoin_pySplit]
                · intro hq
                  rcases hq with hq | hq
                  · rw [List.isEmpty_iff] at hq
                    exact hsubNodes_ne hq
                  · rw [hsh] at hq
                    exact absurd hq (by simp)
              · exact ⟨none, none, none, subNodes, rfl⟩
              · simpa [noCommentsN] using hsnc
            | none =>
              rw [hbits, hsub] at hguard2
              dsimp only at hguard2
              have hfix := fixNode_id_of_canon (comps.getD j []) none none [] c ctype
                (by
                  rw [Bool.or_eq_true] at hguard2
                  rcases hguard2 with hg | hg
                  · exact Or.inl (by simpa using hg)
                  · exact Or.inr hg)
              refine ⟨.elem (comps.getD j []) none (some c) none [], ?_, ?_, ?_, ?_⟩
              · dsimp only
                rw [hfix]
              · simp [encGetComponent]
              · exact ⟨none, some c, none, [], rfl⟩
              · rfl
          | none =>
            rw [hbits] at hguard2
            dsimp only at hguard2
            have hfix := fixNode_id_of_canon (comps.getD j []) none none [] c ctype
              (by
                rw [Bool.or_eq_true] at hguard2
                rcases hguard2 with hg | hg
                · exact Or.inl (by simpa using hg)
                · exact Or.inr hg)
            refine ⟨.elem (comps.getD j []) none (some c) none [], ?_, ?_, ?_, ?_⟩
            · dsimp only
              rw [hfix]
            · simp [encGetComponent]
            · exact ⟨none, some c, none, [], rfl⟩
            · rfl
        obtain ⟨nd, hndE, hndEnc, ⟨aV2, t2, tl2, ch2, hndShape⟩, hndNC⟩ := hnode
        refine ⟨nd :: nodes, ?_, ?_, ?_, ?_, ?_⟩
        · rw [buildComponents, if_neg hcnil, pyIdx_ok_iff.2 hget]
          dsimp only
          rw [hlookE]
          dsimp only
          rw [hndE]
          dsimp only
          rw [hb]
        · rw [hndShape, encCompLoop]
          dsimp only
          rw [hnaming j hjlt, pyNat_natDigits]
          dsimp only
          rw [← hndShape, hndEnc]
          dsimp only
          have hmax : max L (j + 1) = j + 1 := by omega
          rw [hmax, he]
          dsimp only
          rw [padJoin_ne d.compSep (j + 1 - L) (by simp : c :: rest ≠ [])]
          cases hrq : rest with
          | nil =>
            simp [padJoin, pyJoin]
          | cons r rs =>
            rw [padJoin_ne d.compSep 1 (by simp : r :: rs ≠ [])]
            rw [pyJoin_cons_of_ne d.compSep c (by simp : r :: rs ≠ [])]
            simp [List.append_assoc, List.replicate_one]
        · have hne2 := afterDot_ne_escape (hnaming j hjlt)
          rw [hndShape]
          simp only [headIsEscape, decide_eq_false_iff_not]
          intro h
          exact hne2 (by simpa using h)
        · simp only [noCommentsL, Bool.and_eq_true]
          exact ⟨hndNC, hnc⟩
        · intro hq; exact absurd hq (by simp)

def repChain (sep : Char) : List Str → Str
  | [] => []
  | x :: xs => sep :: (x ++ repChain sep xs)

theorem pyJoin_cons_repChain (sep : Char) (x : Str) (xs : List Str) :
    pyJoin sep (x :: xs) = x ++ repChain sep xs := by
  induction xs generalizing x with
  | nil => simp [pyJoin, repChain]
  | cons y ys ih =>
    rw [pyJoin_cons_of_ne sep x (by simp : y :: ys ≠ []), ih y, repChain]

theorem fixNode_elem_shape (tag : Str) (aV txt tl : Option Str) (ch : List Node) (tt : Str) :
    ∃ aV2 t2 tl2 ch2, fixNode (.elem tag aV txt tl ch) tt = .elem tag aV2 t2 tl2 ch2 := by
  unfold fixNode
  split
  · exact ⟨aV, txt, tl, ch, rfl⟩
  · dsimp only
    split
    · exact ⟨_, _, _, _, rfl⟩
    · exact ⟨_, _, _, _, rfl⟩

theorem segTag_drop4 {seg : Str} (h : seg.length = 3) (ds : Str) :
    (seg ++ '.' :: ds).drop 4 = ds := by
  have h2 : seg ++ '.' :: ds = (seg ++ ['.']) ++ ds := by simp
  rw [h2, List.drop_left' (by simp [h] : (seg ++ ['.']).length = 4)]

theorem segTag_ne_MSH1 {seg : Str} (hlen : seg.length = 3) {i : Nat}
    (h : seg ≠ "MSH".toList ∨ 1 ≤ i) :
    seg ++ '.' :: natDigits (i + 1) ≠ "MSH.1".toList := by
  intro he
  have hm : "MSH.1".toList = "MSH".toList ++ '.' :: natDigits 1 := by decide
  rw [hm] at he
  have hlens : seg.length = ("MSH".toList).length := by rw [hlen]; rfl
  obtain ⟨h1, h2⟩ := List.append_inj he hlens
  have h3 : natDigits (i + 1) = natDigits 1 := by
    injection h2
  have ha : pyNat (natDigits (i + 1)) = some (i + 1) := pyNat_natDigits _
  rw [h3, pyNat_natDigits 1] at ha
  rcases h with h | h
  · exact h h1
  · have := Option.some.inj ha
    omega

theorem buildFieldRep_roundtrip (sch : Schema) (d : Delims) (seg : Str)
    (xs : List (Option Str)) (Fields : List Str) (i : Nat)
    (hwf : schemaWF sch)
    (hxsnm : ∀ j : Nat, j < xs.length →
      xs.getD j none = none ∨ xs.getD j none = some (seg ++ '.' :: natDigits (j + 1)))
    (rep : Str) (hc : canonRep sch d seg xs Fields i rep = true) :
    ∃ (aV t tl : Option Str) (ch : List Node),
      buildFieldRep sch d seg (some xs) Fields i rep =
        .ok (.elem (seg ++ '.' :: natDigits (i + 1)) aV t tl ch) ∧
      encGetField d (.elem (seg ++ '.' :: natDigits (i + 1)) aV t tl ch) = .ok rep := by
  rw [canonRep] at hc
  rw [buildFieldRep]
  dsimp only
  cases hxi : xs.get? i with
  | none =>
    rw [hxi] at hc
    refine ⟨none, some rep, none, [], ?_, ?_⟩
    · rfl
    · simp [encGetField]
  | some o =>
    cases o with
    | none =>
      rw [hxi] at hc
      refine ⟨none, some rep, none, [], ?_, ?_⟩
      · rfl
      · simp [encGetField]
    | some fieldRef =>
      rw [hxi] at hc
      dsimp only at hc
      dsimp only
      have hilt : i < xs.length := by
        by_contra hq
        push_neg at hq
        rw [List.get?_eq_getElem?, List.getElem?_eq_none hq] at hxi
        exact absurd hxi (by simp)
      have href : fieldRef = seg ++ '.' :: natDigits (i + 1) := by
        rcases hxsnm i hilt with hq | hq
        · rw [getD_of_get? hxi] at hq
          exact absurd hq (by simp)
        · rw [getD_of_get? hxi] at hq
          exact Option.some.inj hq
      cases hres : resolveFieldType sch seg fieldRef Fields with
      | error e => rw [hres] at hc; exact absurd hc (by simp)
      | ok ftype =>
        rw [hres] at hc
        dsimp only at hc
        dsimp only
        cases hbits : (if ftype = "FT".toList then none else sch.dtComps.lookup ftype) with
        | some comps =>
          rw [hbits] at hc
          dsimp only at hc
          rw [Bool.and_eq_true] at hc
          obtain ⟨hlastne, hcomps⟩ := hc
          rw [decide_eq_true_eq] at hlastne
          have hcompsnm : ∀ j : Nat, j < comps.length →
              afterDot (comps.getD j []) = natDigits (j + 1) := by
            intro j hj
            have hlk : sch.dtComps.lookup ftype = some comps := by
              by_cases hft : ftype = "FT".toList
              · rw [if_pos hft] at hbits; exact absurd hbits (by simp)
              · rw [if_neg hft] at hbits; exact hbits
            exact hwf.2 (ftype, comps) (lookup_mem hlk) j hj
          obtain ⟨compNodes, hb, he, hh, hnc, hne⟩ :=
            buildComps_roundtrip sch d comps hwf hcompsnm
              (pySplit d.compSep rep) 0 1 (le_refl 1) (by omega) hcomps hlastne
          have hcs_ne : pySplit d.compSep rep ≠ [] := pySplit_ne_nil d.compSep rep
          have hcn_ne : compNodes ≠ [] := fun hq => hcs_ne (hne hq)
          refine ⟨none, none, none, compNodes, ?_, ?_⟩
          · dsimp only
            rw [hb]
            rw [href]
          · rw [encGetField]
            rw [if_neg]
            · rw [he]
              have h0 : 0 + 1 - 1 = 0 := rfl
              rw [h0, padJoin_ne d.compSep 0 hcs_ne]
              rw [List.replicate_zero, List.nil_append, pyJoin_pySplit]
            · intro hq
              rcases hq with hq | hq
              · rw [List.isEmpty_iff] at hq
                exact hcn_ne hq
              · rw [hh] at hq
                exact absurd hq (by simp)
        | none =>
          rw [hbits] at hc
          dsimp only at hc
          obtain ⟨hx, hz, hesc⟩ := escOkFieldB_spec hc
          obtain ⟨aV2, t2, tl2, ch2, hshape⟩ :=
            fixNode_elem_shape fieldRef none (some rep) none [] ftype
          refine ⟨aV2, t2, tl2, ch2, ?_, ?_⟩
          · dsimp only
            rw [hshape, href]
          · rw [← href, ← hshape]
            exact encGetField_fixNode d fieldRef none rep ftype hx hz hesc

theorem buildReps_roundtrip (sch : Schema) (d : Delims) (seg : Str)
    (xs : List (Option Str)) (Fields : List Str) (i : Nat)
    (hwf : schemaWF sch) (hlen : seg.length = 3)
    (hxsnm : ∀ j : Nat, j < xs.length →
      xs.getD j none = none ∨ xs.getD j none = some (seg ++ '.' :: natDigits (j + 1)))
    (hms : seg ≠ "MSH".toList ∨ 1 ≤ i) :
    ∀ reps : List Str, reps.all (canonRep sch d seg xs Fields i) = true →
      ∃ rns : List Node,
        buildReps sch d seg (some xs) Fields i reps = .ok rns ∧
        ∀ (rest : List Node) (restOut : Str),
          encFieldLoop d (i + 1) rest = .ok restOut →
          encFieldLoop d (i + 1) (rns ++ rest) = .ok (repChain d.repSep reps ++ restOut) := by
  intro reps
  induction reps with
  | nil =>
    intro _
    refine ⟨[], rfl, ?_⟩
    intro rest restOut hrest
    simpa [repChain] using hrest
  | cons r rs ih =>
    intro hall
    rw [List.all_cons, Bool.and_eq_true] at hall
    obtain ⟨hcr, hcrs⟩ := hall
    obtain ⟨aV, t, tl, ch, hbr, henc⟩ :=
      buildFieldRep_roundtrip sch d seg xs Fields i hwf hxsnm r hcr
    obtain ⟨rns2, hbrs, hcont⟩ := ih hcrs
    refine ⟨.elem (seg ++ '.' :: natDigits (i + 1)) aV t tl ch :: rns2, ?_, ?_⟩
    · rw [buildReps, hbr]
      dsimp only
      rw [hbrs]
    · intro rest restOut hrest
      rw [List.cons_append, encFieldLoop]
      dsimp only
      rw [if_neg (segTag_ne_MSH1 hlen hms)]
      rw [segTag_drop4 hlen, pyNat_natDigits]
      dsimp only
      rw [if_pos rfl, if_pos rfl, henc]
      dsimp only
      rw [hcont rest restOut hrest]
      dsimp only
      rw [repChain]
      simp [List.append_assoc]

theorem buildFields_roundtrip (sch : Schema) (d : Delims) (seg : Str)
    (xs : List (Option Str)) (Fields : List Str)
    (hwf : schemaWF sch) (hlen : seg.length = 3)
    (hxsnm : ∀ j : Nat, j < xs.length →
      xs.getD j none = none ∨ xs.getD j none = some (seg ++ '.' :: natDigits (j + 1))) :
    ∀ (fields : List Str) (i L : Nat), L ≤ i →
      (seg = "MSH".toList → 1 ≤ i) →
      canonFields sch d seg xs Fields i fields = true →
      fields.getLast? ≠ some ([] : Str) →
      ∃ nodes : List Node,
        buildFields sch d seg (some xs) Fields i fields = .ok nodes ∧
        encFieldLoop d L nodes = .ok (padJoin d.fieldSep (i + 1 - L) fields) := by
  intro fields
  induction fields with
  | nil =>
    intro i L _ _ _ _
    exact ⟨[], rfl, rfl⟩
  | cons field rest ih =>
    intro i L hLi hmsh hc hlast
    rw [canonFields, Bool.and_eq_true] at hc
    obtain ⟨hc1, hcrest⟩ := hc
    by_cases hfe : field = []
    · subst hfe
      have hrest_ne : rest ≠ [] := by
        intro hq
        subst hq
        simp at hlast
      have hlast2 : rest.getLast? ≠ some ([] : Str) := by
        cases rest with
        | nil => exact absurd rfl hrest_ne
        | cons x xst =>
          rw [List.getLast?_cons_cons] at hlast
          exact hlast
      obtain ⟨nodes, hb, he⟩ :=
        ih (i + 1) L (by omega) (fun _ => by omega) hcrest hlast2
      refine ⟨nodes, ?_, ?_⟩
      · rw [buildFields, if_pos rfl]
        exact hb
      · rw [he, padJoin_ne d.fieldSep (i + 1 - L) (by simp : ([] : Str) :: rest ≠ []),
          padJoin_ne d.fieldSep (i + 2 - L) hrest_ne]
        rw [pyJoin_cons_of_ne d.fieldSep [] hrest_ne]
        rw [List.nil_append, replicate_append_cons]
        have harith : i + 1 - L + 1 = i + 2 - L := by omega
        rw [harith]
    · have hms : seg ≠ "MSH".toList ∨ 1 ≤ i := by
        by_cases hq : seg = "MSH".toList
        · exact Or.inr (hmsh hq)
        · exact Or.inl hq
      rw [Bool.or_eq_true] at hc1
      rcases hc1 with hemp | hall
      · exact absurd (by simpa [List.isEmpty_iff] using hemp) hfe
      have hreps_ne :
          (if seg ≠ "MSH".toList ∧ i ≠ 1 then pySplit d.repSep field else [field]) ≠ [] := by
        split
        · exact pySplit_ne_nil _ _
        · simp
      have hfield_eq :
          pyJoin d.repSep
            (if seg ≠ "MSH".toList ∧ i ≠ 1 then pySplit d.repSep field else [field]) =
            field := by
        split
        · exact pyJoin_pySplit _ _
        · rfl
      rw [buildFields, if_neg hfe]
      dsimp only
      generalize hrq :
        (if seg ≠ "MSH".toList ∧ i ≠ 1 then pySplit d.repSep field else [field]) = reps
          at hall hreps_ne hfield_eq ⊢
      cases reps with
      | nil => exact absurd rfl hreps_ne
      | cons r rs =>
        rw [List.all_cons, Bool.and_eq_true] at hall
        obtain ⟨hcr, hcrs⟩ := hall
        obtain ⟨aV, t, tl, ch, hbr, henc⟩ :=
          buildFieldRep_roundtrip sch d seg xs Fields i hwf hxsnm r hcr
        obtain ⟨rns2, hbrs, hcont⟩ :=
          buildReps_roundtrip sch d seg xs Fields i hwf hlen hxsnm hms rs hcrs
        have hlast2 : rest.getLast? ≠ some ([] : Str) := by
          cases rest with
          | nil => simp
          | cons x xst =>
            rw [List.getLast?_cons_cons] at hlast
            exact hlast
        obtain ⟨nodes2, hb2, he2⟩ :=
          ih (i + 1) (i + 1) (le_refl _) (fun _ => by omega) hcrest hlast2
        have h1 : i + 1 + 1 - (i + 1) = 1 := by omega
        rw [h1] at he2
        refine ⟨.elem (seg ++ '.' :: natDigits (i + 1)) aV t tl ch :: (rns2 ++ nodes2),
          ?_, ?_⟩
        · rw [buildReps, hbr]
          dsimp only
          rw [hbrs]
          dsimp only
          rw [hb2]
          rfl
        · rw [encFieldLoop]
          dsimp only
          rw [if_neg (segTag_ne_MSH1 hlen hms)]
          rw [segTag_drop4 hlen, pyNat_natDigits]
          dsimp only
          rw [if_neg (by omega : ¬(i + 1 = L)), if_neg (by omega : ¬(i + 1 = L)), henc]
          dsimp only
          have hmax : max L (i + 1) = i + 1 := by omega
          rw [hmax]
          rw [hcont nodes2 (padJoin d.fieldSep 1 rest) he2]
          dsimp only
          rw [padJoin_ne d.fieldSep (i + 1 - L) (by simp : field :: rest ≠ [])]
          have hfr : r ++ repChain d.repSep rs = field := by
            rw [← hfield_eq, pyJoin_cons_repChain]
          cases hrc : rest with
          | nil =>
            rw [← hfr]
            simp [padJoin, pyJoin, List.append_assoc]
          | cons x xst =>
            rw [padJoin_ne d.fieldSep 1 (by simp : x :: xst ≠ [])]
            rw [pyJoin_cons_of_ne d.fieldSep field (by simp : x :: xst ≠ [])]
            rw [← hfr]
            simp [List.append_assoc, List.replicate_one]

theorem buildSegment_roundtrip (ctx : Ctx) (hwf : schemaWF ctx.schema) (s : Str)
    (hc : canonSegment ctx s = true) :
    ∃ nd : Node, buildSegment ctx s = .ok nd ∧ encGetSegment ctx.d nd = .ok [s] := by
  rw [canonSegment, Bool.and_eq_true] at hc
  obtain ⟨hlen3, hc2⟩ := hc
  rw [decide_eq_true_eq] at hlen3
  cases hsp : pySplit ctx.d.fieldSep s with
  | nil => exact absurd hsp (pySplit_ne_nil _ _)
  | cons f0 rest0 =>
    rw [hsp] at hc2
    dsimp only at hc2
    rw [Bool.and_eq_true] at hc2
    obtain ⟨hf0, hc3⟩ := hc2
    rw [decide_eq_true_eq] at hf0
    have hs : pyJoin ctx.d.fieldSep (f0 :: rest0) = s := by
      rw [← hsp, pyJoin_pySplit]
    have hflen : f0.length = 3 := by rw [hf0]; exact hlen3
    by_cases hmsh : f0 = "MSH".toList
    · rw [if_pos hmsh] at hc3
      dsimp only at hc3
      cases hlookxs : ctx.schema.segFields.lookup f0 with
      | none => rw [hlookxs] at hc3; exact absurd hc3 (by simp)
      | some xs =>
        rw [hlookxs] at hc3
        dsimp only at hc3
        rw [Bool.and_eq_true] at hc3
        obtain ⟨hlastF, hcf⟩ := hc3
        rw [decide_eq_true_eq] at hlastF
        obtain ⟨_, hxsnm⟩ := hwf.1 (f0, xs) (lookup_mem hlookxs)
        rw [canonFields, Bool.and_eq_true] at hcf
        obtain ⟨hcf0, hcfrest⟩ := hcf
        rw [if_neg (fun h => h.1 hmsh)] at hcf0
        have hcr0 : canonRep ctx.schema ctx.d f0 xs ([ctx.d.fieldSep] :: rest0) 0
            [ctx.d.fieldSep] = true := by
          rw [Bool.or_eq_true] at hcf0
          rcases hcf0 with hq | hq
          · exact absurd hq (by simp [List.isEmpty_iff])
          · rw [List.all_cons, Bool.and_eq_true] at hq
            exact hq.1
        obtain ⟨aV, t, tl, ch, hbr, henc⟩ :=
          buildFieldRep_roundtrip ctx.schema ctx.d f0 xs ([ctx.d.fieldSep] :: rest0) 0
            hwf hxsnm [ctx.d.fieldSep] hcr0
        have hlastR : rest0.getLast? ≠ some ([] : Str) := by
          cases rest0 with
          | nil => simp
          | cons x xst =>
            rw [List.getLast?_cons_cons] at hlastF
            exact hlastF
        obtain ⟨nodesR, hb2, he2⟩ :=
          buildFields_roundtrip ctx.schema ctx.d f0 xs ([ctx.d.fieldSep] :: rest0)
            hwf hflen hxsnm rest0 1 1 (le_refl 1) (fun _ => le_refl 1) hcfrest hlastR
        have h1 : 1 + 1 - 1 = 1 := rfl
        rw [h1] at he2
        refine ⟨.elem (s.take 3) none none none
          (.elem (f0 ++ '.' :: natDigits 1) aV t tl ch :: nodesR), ?_, ?_⟩
        · rw [buildSegment]
          dsimp only
          rw [hsp]
          dsimp only
          rw [if_pos hmsh]
          dsimp only
          rw [hlookxs]
          rw [buildFields, if_neg (by simp : ¬([ctx.d.fieldSep] : Str) = [])]
          dsimp only
          rw [if_neg (fun h => h.1 hmsh)]
          have hreps : buildReps ctx.schema ctx.d f0 (some xs) ([ctx.d.fieldSep] :: rest0) 0
              [[ctx.d.fieldSep]] =
              .ok [Node.elem (f0 ++ '.' :: natDigits (0 + 1)) aV t tl ch] := by
            rw [buildReps, hbr]
            rfl
          rw [hreps]
          dsimp only
          rw [hb2]
          dsimp only
          rw [List.singleton_append]
        · rw [encGetSegment]
          rw [if_neg (by rw [hlen3]; omega : ¬(s.take 3).length > 3)]
          rw [encFieldLoop]
          dsimp only
          rw [hmsh, if_pos (by decide :
            "MSH".toList ++ '.' :: natDigits 1 = "MSH.1".toList)]
          rw [he2]
          dsimp only
          cases hrc : rest0 with
          | nil =>
            rw [hrc] at hs
            rw [← hf0, ← hs]
            simp [padJoin, pyJoin]
          | cons x xst =>
            rw [hrc] at hs
            rw [pyJoin_cons_of_ne ctx.d.fieldSep f0 (by simp : x :: xst ≠ [])] at hs
            rw [padJoin_ne ctx.d.fieldSep 1 (by simp : x :: xst ≠ [])]
            rw [← hf0, ← hs]
            simp [List.replicate_one]
    · rw [if_neg hmsh] at hc3
      dsimp only at hc3
      cases hlookxs : ctx.schema.segFields.lookup f0 with
      | none => rw [hlookxs] at hc3; exact absurd hc3 (by simp)
      | some xs =>
        rw [hlookxs] at hc3
        dsimp only at hc3
        rw [Bool.and_eq_true] at hc3
        obtain ⟨hlastF, hcf⟩ := hc3
        rw [decide_eq_true_eq] at hlastF
        obtain ⟨_, hxsnm⟩ := hwf.1 (f0, xs) (lookup_mem hlookxs)
        obtain ⟨nodes, hb, he⟩ :=
          buildFields_roundtrip ctx.schema ctx.d f0 xs rest0
            hwf hflen hxsnm rest0 0 0 (le_refl 0) (fun hq => absurd hq hmsh) hcf hlastF
        have h1 : 0 + 1 - 0 = 1 := rfl
        rw [h1] at he
        refine ⟨.elem (s.take 3) none none none nodes, ?_, ?_⟩
        · rw [buildSegment]
          dsimp only
          rw [hsp]
          dsimp only
          rw [if_neg hmsh]
          dsimp only
          rw [hlookxs, hb]
        · rw [encGetSegment]
          rw [if_neg (by rw [hlen3]; omega : ¬(s.take 3).length > 3)]
          rw [he]
          dsimp only
          cases hrc : rest0 with
          | nil =>
            rw [hrc] at hs
            rw [← hf0, ← hs]
            simp [padJoin, pyJoin]
          | cons x xst =>
            rw [hrc] at hs
            rw [pyJoin_cons_of_ne ctx.d.fieldSep f0 (by simp : x :: xst ≠ [])] at hs
            rw [padJoin_ne ctx.d.fieldSep 1 (by simp : x :: xst ≠ [])]
            rw [← hf0, ← hs]
            simp [List.replicate_one]

/-- The sub-list `l[a:b]` of the segment list. -/
def segSlice (l : List Str) (a b : Nat) : List Str := (l.drop a).take (b - a)

theorem segSlice_self (l : List Str) (a : Nat) : segSlice l a a = [] := by
  simp [segSlice]

theorem segSlice_concat (l : List Str) {a b c : Nat} (hab : a ≤ b) (hbc : b ≤ c) :
    segSlice l a b ++ segSlice l b c = segSlice l a c := by
  unfold segSlice
  have h1 : (l.drop a).take (c - a) = (l.drop a).take ((b - a) + (c - b)) := by
    congr 1
    omega
  have h2 : (l.drop a).drop (b - a) = l.drop b := by
    rw [List.drop_drop]
    congr 1
    omega
  rw [h1, List.take_add, h2]

theorem segSlice_single {l : List Str} {n : Nat} {x : Str} (h : l.get? n = some x) :
    segSlice l n (n + 1) = [x] := by
  have hlt : n < l.length := by
    by_contra hq
    push_neg at hq
    rw [List.get?_eq_getElem?, List.getElem?_eq_none hq] at h
    exact absurd h (by simp)
  have hx : l[n] = x := by
    rw [List.get?_eq_getElem?, List.getElem?_eq_getElem hlt] at h
    exact Option.some.inj h
  unfold segSlice
  rw [List.drop_eq_getElem_cons hlt]
  simp [hx]

theorem encSegList_append (d : Delims) (l1 l2 : List Node) (s1 s2 : List Str)
    (h1 : encSegList d l1 = .ok s1) (h2 : encSegList d l2 = .ok s2) :
    encSegList d (l1 ++ l2) = .ok (s1 ++ s2) := by
  induction l1 generalizing s1 with
  | nil =>
    rw [encSegList] at h1
    have hs1 : ([] : List Str) = s1 := Except.ok.inj h1
    subst hs1
    simpa using h2
  | cons c rest ih =>
    rw [encSegList] at h1
    cases hg : encGetSegment d c with
    | error e =>
      rw [hg] at h1
      simp at h1
    | ok l =>
      rw [hg] at h1
      dsimp only at h1
      cases hrest : encSegList d rest with
      | error e =>
        rw [hrest] at h1
        simp at h1
      | ok ls =>
        rw [hrest] at h1
        dsimp only at h1
        have hs1 : l ++ ls = s1 := Except.ok.inj h1
        rw [List.cons_append, encSegList, hg]
        dsimp only
        rw [ih ls hrest]
        dsimp only
        rw [← hs1, List.append_assoc]

theorem noCommentsL_append (l1 l2 : List Node) :
    noCommentsL (l1 ++ l2) = (noCommentsL l1 && noCommentsL l2) := by
  induction l1 with
  | nil => simp [noCommentsL]
  | cons c rest ih =>
    rw [List.cons_append, noCommentsL, ih, noCommentsL, Bool.and_assoc]

theorem encSegList_snoc (d : Delims) (pre : List Node) (nd : Node) (s1 l : List Str)
    (h1 : encSegList d pre = .ok s1) (h2 : encGetSegment d nd = .ok l) :
    encSegList d (pre ++ [nd]) = .ok (s1 ++ l) := by
  apply encSegList_append d pre [nd] s1 l h1
  rw [encSegList, h2]
  dsimp only
  have h0 : encSegList d ([] : List Node) = .ok ([] : List Str) := rfl
  rw [h0]
  dsimp only
  rw [List.append_nil]

theorem cxLoop_flatten (ctx : Ctx) (hwf : schemaWF ctx.schema)
    (hall : ∀ s ∈ ctx.segments, canonSegment ctx s = true) :
    ∀ (fuel : Nat) (seqList : List GNode) (sAt : Nat) (tag : Str)
      (opt isCh : Bool) (depth : Nat) (ch : Option (List Node))
      (lastSeg : Option Str) (occ a segNo : Nat) (res : Option Node × Nat),
      cxLoop ctx fuel seqList sAt tag opt isCh depth ch lastSeg occ segNo = .ok res →
      a ≤ segNo → segNo ≤ ctx.segments.length →
      (ch = none → a = segNo) →
      (∀ pre, ch = some pre → noCommentsL pre = true →
        encSegList ctx.d pre = .ok (segSlice ctx.segments a segNo)) →
      segNo ≤ res.2 ∧ res.2 ≤ ctx.segments.length ∧
      (res.1 = none → res.2 = segNo ∧ ch = none) ∧
      (∀ nd, res.1 = some nd → ∃ ch2 : List Node,
        nd = mkElem tag ch2 ∧
        (∀ pre, ch = some pre → ∃ suf, ch2 = pre ++ suf) ∧
        (noCommentsL ch2 = true →
          encSegList ctx.d ch2 = .ok (segSlice ctx.segments a res.2))) := by
  intro fuel
  induction fuel with
  | zero =>
    intro seqList sAt tag opt isCh depth ch lastSeg occ a segNo res hrun
    exact absurd hrun (by intro h; exact Except.noConfusion h)
  | succ fuel ih =>
    intro seqList sAt tag opt isCh depth ch lastSeg occ a segNo res hrun hax hlen hnone hsome
    rw [cxLoop_succ] at hrun
    unfold cxBody at hrun
    have hpre : noCommentsL (ch.getD []) = true →
        encSegList ctx.d (ch.getD []) = .ok (segSlice ctx.segments a segNo) := by
      cases ch with
      | none =>
        intro _
        rw [hnone rfl, segSlice_self]
        rfl
      | some pre =>
        intro h
        exact hsome pre rfl h
    have hpre2 : ∀ pre, ch = some pre → ch.getD [] = pre := by
      intro pre h
      rw [h]
      rfl
    have hidle : res = (ch.map (mkElem tag), segNo) →
        segNo ≤ res.2 ∧ res.2 ≤ ctx.segments.length ∧
        (res.1 = none → res.2 = segNo ∧ ch = none) ∧
        (∀ nd, res.1 = some nd → ∃ ch2 : List Node,
          nd = mkElem tag ch2 ∧
          (∀ pre, ch = some pre → ∃ suf, ch2 = pre ++ suf) ∧
          (noCommentsL ch2 = true →
            encSegList ctx.d ch2 = .ok (segSlice ctx.segments a res.2))) := by
      intro hres
      subst hres
      refine ⟨le_refl _, hlen, ?_, ?_⟩
      · intro h
        cases ch with
        | none => exact ⟨rfl, rfl⟩
        | some pre => exact absurd h (by simp)
      · intro nd hnd
        cases ch with
        | none => exact absurd hnd (by simp)
        | some pre =>
          have hnd2 : mkElem tag pre = nd := by simpa using hnd
          refine ⟨pre, hnd2.symm, ?_, ?_⟩
          · intro pre0 hp
            refine ⟨[], ?_⟩
            rw [← Option.some.inj hp, List.append_nil]
          · intro hq
            exact hsome pre rfl hq
    have hcont : ∀ (sAt2 : Nat) (ls2 : Option Str) (oc2 n2 : Nat) (x : Node),
        a ≤ n2 → segNo ≤ n2 → n2 ≤ ctx.segments.length →
        (noCommentsL (ch.getD [] ++ [x]) = true →
          encSegList ctx.d (ch.getD [] ++ [x]) = .ok (segSlice ctx.segments a n2)) →
        cxLoop ctx fuel seqList sAt2 tag opt isCh depth (some (ch.getD [] ++ [x]))
          ls2 oc2 n2 = .ok res →
        segNo ≤ res.2 ∧ res.2 ≤ ctx.segments.length ∧
        (res.1 = none → res.2 = segNo ∧ ch = none) ∧
        (∀ nd, res.1 = some nd → ∃ ch2 : List Node,
          nd = mkElem tag ch2 ∧
          (∀ pre, ch = some pre → ∃ suf, ch2 = pre ++ suf) ∧
          (noCommentsL ch2 = true →
            encSegList ctx.d ch2 = .ok (segSlice ctx.segments a res.2))) := by
      intro sAt2 ls2 oc2 n2 x han hsn hn2 hx hrun2
      obtain ⟨b1, b2, bnone, bsome⟩ :=
        ih seqList sAt2 tag opt isCh depth (some (ch.getD [] ++ [x])) ls2 oc2 a n2 res
          hrun2 han hn2 (by intro h; exact Option.noConfusion h)
          (by
            intro pre hp hq
            have hinj := Option.some.inj hp
            subst hinj
            exact hx hq)
      refine ⟨by omega, b2, ?_, ?_⟩
      · intro h
        exact absurd (bnone h).2 (by simp)
      · intro nd hnd
        obtain ⟨ch2, hmk, hpref, henc2⟩ := bsome nd hnd
        refine ⟨ch2, hmk, ?_, henc2⟩
        intro pre0 hp
        obtain ⟨suf, hsuf⟩ := hpref (ch.getD [] ++ [x]) rfl
        exact ⟨[x] ++ suf, by rw [hsuf, hpre2 pre0 hp, List.append_assoc]⟩
    have hret : ∀ (n2 : Nat) (x : Node),
        a ≤ n2 → segNo ≤ n2 → n2 ≤ ctx.segments.length →
        (noCommentsL (ch.getD [] ++ [x]) = true →
          encSegList ctx.d (ch.getD [] ++ [x]) = .ok (segSlice ctx.segments a n2)) →
        res = (some (mkElem tag (ch.getD [] ++ [x])), n2) →
        segNo ≤ res.2 ∧ res.2 ≤ ctx.segments.length ∧
        (res.1 = none → res.2 = segNo ∧ ch = none) ∧
        (∀ nd, res.1 = some nd → ∃ ch2 : List Node,
          nd = mkElem tag ch2 ∧
          (∀ pre, ch = some pre → ∃ suf, ch2 = pre ++ suf) ∧
          (noCommentsL ch2 = true →
            encSegList ctx.d ch2 = .ok (segSlice ctx.segments a res.2))) := by
      intro n2 x han hsn hn2 hx hres
      subst hres
      refine ⟨hsn, hn2, ?_, ?_⟩
      · intro h
        exact absurd h (by simp)
      · intro nd hnd
        have hnd2 : mkElem tag (ch.getD [] ++ [x]) = nd := by simpa using hnd
        refine ⟨ch.getD [] ++ [x], hnd2.symm, ?_, hx⟩
        intro pre0 hp
        exact ⟨[x], by rw [hpre2 pre0 hp]⟩
    have hcreate : ∀ (gl : List GNode) (gtag : Str) (gopt gch : Bool) (sn : Nat)
        (gres : Option Node × Nat),
        createXML ctx fuel gl gtag gopt gch depth sn = .ok gres →
        sn ≤ ctx.segments.length →
        sn ≤ gres.2 ∧ gres.2 ≤ ctx.segments.length ∧
        (gres.1 = none → gres.2 = sn) ∧
        (∀ nd, gres.1 = some nd → ∃ gch2 : List Node, nd = mkElem gtag gch2 ∧
          (noCommentsL gch2 = true →
            encSegList ctx.d gch2 = .ok (segSlice ctx.segments sn gres.2))) := by
      intro gl gtag gopt gch sn gres hg hsn
      rw [createXML] at hg
      by_cases hd : depth > 200
      · rw [if_pos hd] at hg
        cases hsg : pyIdx ctx.segments sn with
        | error e =>
          rw [hsg] at hg
          exact absurd hg (by simp)
        | ok s =>
          rw [hsg] at hg
          dsimp only at hg
          have hslt : sn < ctx.segments.length :=
            (List.get?_eq_some.1 (pyIdx_ok_iff.1 hsg)).1
          have hres := Except.ok.inj hg
          subst hres
          refine ⟨by omega, by omega, ?_, ?_⟩
          · intro h
            exact absurd h (by simp)
          · intro nd hnd
            have hnd2 : mkElem gtag [Node.comment s] = nd := by simpa using hnd
            refine ⟨[Node.comment s], hnd2.symm, ?_⟩
            intro hq
            exact absurd hq (by simp [noCommentsL, noCommentsN])
      · rw [if_neg hd] at hg
        obtain ⟨c1, c2, cnone, csome⟩ :=
          ih gl 0 gtag gopt gch (depth + 1) none none 0 sn sn gres hg (le_refl sn) hsn
            (fun _ => rfl) (by intro pre hp; exact Option.noConfusion hp)
        refine ⟨c1, c2, fun h => (cnone h).1, ?_⟩
        intro nd hnd
        obtain ⟨gch2, hmk, _, henc⟩ := csome nd hnd
        exact ⟨gch2, hmk, henc⟩
    cases hnd : seqList.get? sAt with
    | none =>
      rw [hnd] at hrun
      dsimp only at hrun
      exact hidle (Except.ok.inj hrun).symm
    | some node =>
      rw [hnd] at hrun
      dsimp only at hrun
      cases hseg : pyIdx ctx.segments segNo with
      | error e =>
        rw [hseg] at hrun
        exact absurd hrun (by simp)
      | ok segText =>
        rw [hseg] at hrun
        dsimp only at hrun
        have hget : ctx.segments.get? segNo = some segText := pyIdx_ok_iff.1 hseg
        have hlt : segNo < ctx.segments.length := (List.get?_eq_some.1 hget).1
        by_cases hmatch : node.ref ≠ segText.take 3
        · rw [if_pos hmatch] at hrun
          by_cases hglen : node.ref.length > 3
          · -- the group branch
            rw [if_pos hglen] at hrun
            cases hlookg : ctx.schema.groups.lookup node.ref with
            | none =>
              rw [hlookg] at hrun
              exact absurd hrun (by simp)
            | some p =>
              obtain ⟨groupList, thisChoice⟩ := p
              rw [hlookg] at hrun
              dsimp only at hrun
              cases hgc : createXML ctx fuel groupList node.ref
                  (decide (node.minOccurs = "0".toList)) thisChoice depth segNo with
              | error e =>
                rw [hgc] at hrun
                exact absurd hrun (by simp)
              | ok gres =>
                obtain ⟨gopt1, gn2⟩ := gres
                obtain ⟨g1, g2, gnone, gsome⟩ :=
                  hcreate groupList node.ref _ thisChoice segNo (gopt1, gn2) hgc
                    (le_of_lt hlt)
                rw [hgc] at hrun
                cases gopt1 with
                | some groupXML =>
                  dsimp only at hrun
                  obtain ⟨gch2, hmkg, hencg⟩ := gsome groupXML rfl
                  have hinv2 : noCommentsL (ch.getD [] ++ [groupXML]) = true →
                      encSegList ctx.d (ch.getD [] ++ [groupXML]) =
                        .ok (segSlice ctx.segments a gn2) := by
                    intro hq
                    rw [noCommentsL_append, Bool.and_eq_true] at hq
                    obtain ⟨hq1, hq2⟩ := hq
                    have hgnc : noCommentsL gch2 = true := by
                      rw [hmkg] at hq2
                      simpa [noCommentsL, noCommentsN, mkElem] using hq2
                    have hgseg : encGetSegment ctx.d groupXML =
                        .ok (segSlice ctx.segments segNo gn2) := by
                      rw [hmkg]
                      rw [mkElem, encGetSegment, if_pos hglen]
                      exact hencg hgnc
                    rw [encSegList_snoc ctx.d _ groupXML _ _ (hpre hq1) hgseg]
                    rw [segSlice_concat ctx.segments hax (by simp at g1; omega)]
                  by_cases hlt2 : gn2 < ctx.segments.length
                  · rw [if_pos hlt2] at hrun
                    exact hcont sAt lastSeg occ gn2 groupXML
                      (by simp at g1; omega) (by simp at g1; omega) (by omega) hinv2 hrun
                  · rw [if_neg hlt2] at hrun
                    exact hret gn2 groupXML (by simp at g1; omega) (by simp at g1; omega)
                      g2 hinv2 (Except.ok.inj hrun).symm
                | none =>
                  dsimp only at hrun
                  have hgn2 : gn2 = segNo := gnone rfl
                  rw [hgn2] at hrun
                  by_cases hmin0 : node.minOccurs = "0".toList
                  · rw [if_pos hmin0] at hrun
                    exact ih seqList (sAt + 1) tag opt isCh depth ch lastSeg occ a segNo
                      res hrun hax hlen hnone hsome
                  · rw [if_neg hmin0] at hrun
                    exact hidle (Except.ok.inj hrun).symm
          · rw [if_neg hglen] at hrun
            by_cases hmin0 : node.minOccurs = "0".toList
            · rw [if_pos hmin0] at hrun
              exact ih seqList (sAt + 1) tag opt isCh depth ch lastSeg occ a segNo res
                hrun hax hlen hnone hsome
            · rw [if_neg hmin0] at hrun
              cases opt with
              | true =>
                rw [if_pos rfl] at hrun
                exact hidle (Except.ok.inj hrun).symm
              | false =>
                rw [if_neg (by simp)] at hrun
                have hcc : noCommentsL (ch.getD [] ++
                    [Node.comment ("Unexpected segment: ".toList ++ segText)]) = false := by
                  rw [noCommentsL_append]
                  simp [noCommentsL, noCommentsN]
                by_cases hinc : segNo + 1 < ctx.segments.length
                · rw [if_pos hinc] at hrun
                  exact hcont sAt lastSeg occ (segNo + 1)
                    (Node.comment ("Unexpected segment: ".toList ++ segText))
                    (by omega) (by omega) (by omega)
                    (by intro hq; rw [hcc] at hq; exact absurd hq (by simp)) hrun
                · rw [if_neg hinc] at hrun
                  exact hret (segNo + 1)
                    (Node.comment ("Unexpected segment: ".toList ++ segText))
                    (by omega) (by omega) (by omega)
                    (by intro hq; rw [hcc] at hq; exact absurd hq (by simp))
                    (Except.ok.inj hrun).symm
        · -- the matching branch
          rw [if_neg hmatch] at hrun
          have hcanon : canonSegment ctx segText = true :=
            hall segText (List.get?_mem hget)
          obtain ⟨segElement, hbseg, hencseg⟩ := buildSegment_roundtrip ctx hwf segText hcanon
          rw [hbseg] at hrun
          dsimp only at hrun
          have hinv2 : noCommentsL (ch.getD [] ++ [segElement]) = true →
              encSegList ctx.d (ch.getD [] ++ [segElement]) =
                .ok (segSlice ctx.segments a (segNo + 1)) := by
            intro hq
            rw [noCommentsL_append, Bool.and_eq_true] at hq
            rw [encSegList_snoc ctx.d _ segElement _ [segText] (hpre hq.1) hencseg]
            rw [← segSlice_single hget]
            rw [segSlice_concat ctx.segments hax (by omega)]
          by_cases hend : segNo + 1 = ctx.segments.length
          · rw [if_pos hend] at hrun
            exact hret (segNo + 1) segElement (by omega) (by omega) (by omega) hinv2
              (Except.ok.inj hrun).symm
          · rw [if_neg hend] at hrun
            cases isCh with
            | true =>
              rw [if_pos rfl] at hrun
              exact hret (segNo + 1) segElement (by omega) (by omega) (by omega) hinv2
                (Except.ok.inj hrun).symm
            | false =>
              rw [if_neg (by simp)] at hrun
              by_cases hunb : node.maxOccurs = "unbounded".toList
              · rw [if_pos hunb] at hrun
                exact hcont sAt _ _ (segNo + 1) segElement (by omega) (by omega)
                  (by omega) hinv2 hrun
              · rw [if_neg hunb] at hrun
                cases hmo : pyNat node.maxOccurs with
                | none =>
                  rw [hmo] at hrun
                  exact absurd hrun (by simp)
                | some mo =>
                  rw [hmo] at hrun
                  dsimp only at hrun
                  by_cases hocc : (if ¬lastSeg = some (segText.take 3) then 0 else occ) + 1 < mo
                  · rw [if_pos hocc] at hrun
                    exact hcont sAt _ _ (segNo + 1) segElement (by omega) (by omega)
                      (by omega) hinv2 hrun
                  · rw [if_neg hocc] at hrun
                    exact hcont (sAt + 1) _ _ (segNo + 1) segElement (by omega) (by omega)
                      (by omega) hinv2 hrun

/-- C1 (corrected): for a message whose every segment is in the canonical
form `canonSegment` (no trailing empty fields, components or
subcomponents, escape-compatible leaf texts) under a well-formed schema,
a complete decode (`createXML` consuming every segment and producing a
tree free of diagnostic comments) followed by `encodeMessage` returns the
original segment list byte for byte.  The unrestricted claim is refuted by
`createXML_roundtrip_trailing_counterexample`. -/
theorem createXML_encodeMessage_roundtrip (ctx : Ctx) (fuel : Nat)
    (seqList : List GNode) (tag : Str) (isCh : Bool) (tree : Node)
    (hwf : schemaWF ctx.schema)
    (hall : ∀ s ∈ ctx.segments, canonSegment ctx s = true)
    (hrun : createXML ctx fuel seqList tag false isCh 0 0 =
      .ok (some tree, ctx.segments.length))
    (hnc : noCommentsN tree = true) :
    encodeMessage ctx.d tree = .ok ctx.segments := by
  rw [createXML, if_neg (by omega)] at hrun
  obtain ⟨b1, b2, bnone, bsome⟩ :=
    cxLoop_flatten ctx hwf hall fuel seqList 0 tag false isCh 1 none none 0 0 0
      (some tree, ctx.segments.length) hrun (le_refl 0) (by omega)
      (fun _ => rfl) (by intro pre hp; exact Option.noConfusion hp)
  obtain ⟨ch2, hmk, _, henc⟩ := bsome tree rfl
  have hnc2 : noCommentsL ch2 = true := by
    rw [hmk] at hnc
    simpa [noCommentsN, mkElem] using hnc
  rw [hmk, mkElem, encodeMessage]
  rw [henc hnc2]
  simp [segSlice]

/-- A small well-formed grammar model: an `MSH` and an `MSA` segment
layout, with `MSH.3` of the composite datatype `HD`. -/
def wSchema : Schema :=
  ⟨[],
   [("MSH".toList, [some "MSH.1".toList, some "MSH.2".toList, some "MSH.3".toList]),
    ("MSA".toList, [some "MSA.1".toList, some "MSA.2".toList])],
   [("MSH.1".toList, "ST".toList), ("MSH.2".toList, "ST".toList),
    ("MSH.3".toList, "HD".toList), ("MSA.1".toList, "ID".toList),
    ("MSA.2".toList, "ST".toList)],
   [("HD.1".toList, "IS".toList), ("HD.2".toList, "ST".toList)],
   [("HD".toList, ["HD.1".toList, "HD.2".toList])]⟩

def wSegments : List Str := ["MSH|^~\\&|app^fac".toList, "MSA|AA|123".toList]

def wCtx : Ctx := ⟨wSegments, wSchema, sampleDelims⟩

def wSeq : List GNode :=
  [⟨"MSH".toList, "1".toList, "1".toList⟩, ⟨"MSA".toList, "1".toList, "1".toList⟩]

def wTag : Str := "ACK".toList

/-- The tree the decoder produces for `wSegments`. -/
def wTree : Node :=
  mkElem wTag
    [.elem "MSH".toList none none none
      [.elem "MSH.1".toList none (some "|".toList) none [],
       .elem "MSH.2".toList none (some "^~\\&".toList) none [],
       .elem "MSH.3".toList none none none
         [.elem "HD.1".toList none (some "app".toList) none [],
          .elem "HD.2".toList none (some "fac".toList) none []]],
     .elem "MSA".toList none none none
      [.elem "MSA.1".toList none (some "AA".toList) none [],
       .elem "MSA.2".toList none (some "123".toList) none []]]

theorem createXML_encodeMessage_roundtrip_witness :
    (∀ s ∈ wCtx.segments, canonSegment wCtx s = true) ∧
    encodeMessage wCtx.d wTree = .ok wCtx.segments :=
  ⟨by decide, createXML_encodeMessage_roundtrip wCtx 2 wSeq wTag false wTree
    (by decide) (by decide) (by rfl) (by rfl)⟩

def cSegments : List Str := ["MSH|^~\\&|".toList]

def cCtx : Ctx := ⟨cSegments, wSchema, sampleDelims⟩

def cSeq : List GNode := [⟨"MSH".toList, "1".toList, "1".toList⟩]

/-- The tree the decoder produces for the lone segment `MSH|^~\&|`: the
trailing empty field is dropped by the `if thisField == ''` skip. -/
def cTree : Node :=
  mkElem wTag
    [.elem "MSH".toList none none none
      [.elem "MSH.1".toList none (some "|".toList) none [],
       .elem "MSH.2".toList none (some "^~\\&".toList) none []]]

/-- C1 counterexample: the message `MSH|^~\&|` (trailing field separator)
decodes completely with no anomaly and no diagnostic comment, yet
re-encoding returns `MSH|^~\&` — the trailing separator is lost, so the
unrestricted round trip fails. -/
theorem createXML_roundtrip_trailing_counterexample :
    createXML cCtx 2 cSeq wTag false false 0 0 =
      .ok (some cTree, cCtx.segments.length) ∧
    noCommentsN cTree = true ∧
    encodeMessage cCtx.d cTree = .ok ["MSH|^~\\&".toList] ∧
    ("MSH|^~\\&".toList : Str) ≠ "MSH|^~\\&|".toList ∧
    cCtx.segments = ["MSH|^~\\&|".toList] :=
  ⟨rfl, rfl, rfl, by decide, rfl⟩
